import Mathlib

/-!
Shallow embedding of the VoxFS on-disk engine (crate `voxfs`) and proofs about
it. Machine integers are modelled as `Nat`; a "byte" is a `Nat` that is kept
below 256 by construction; little-endian multi-byte fields are encoded through
`leWrite`/`leRead`. The byte-addressable backing store expected by the
`DiskHandler` trait is modelled as a total function from byte addresses to
bytes (an always-succeeding handler).
-/

namespace VoxFS

/-! ## Little-endian byte codec (byteorder::LittleEndian::write/read of u16/u32/u64) -/

/-- Little-endian encoding of `n` on `k` bytes, mirroring
`LittleEndian::write_uNN`: byte `i` is `(n >>> (8*i)) % 256`. -/
def leWrite : Nat → Nat → List Nat
  | 0, _ => []
  | k + 1, n => (n % 256) :: leWrite k (n / 256)

/-- Little-endian decoding of the first `k` bytes of a byte list, mirroring
`LittleEndian::read_uNN`; absent bytes read as zero. -/
def leRead : Nat → List Nat → Nat
  | 0, _ => 0
  | _ + 1, [] => 0
  | k + 1, b :: rest => b + 256 * leRead k rest

/-! ## 8-bit wrapping checksum (checksum_trait.rs) -/

/-- Wrapping `u8` sum of a byte list, as in `Checksum::calculate_checksum` /
`Checksum::perform_checksum`. -/
def byteSum (l : List Nat) : Nat := l.foldl (fun s b => (s + b) % 256) 0

/-- Decide `l.length < n` by walking at most `n` list cells. This is the
Boolean `bytes.len() < N` of the `from_bytes` guards; the short-circuit form
keeps kernel evaluation shallow on block-sized buffers. -/
def lenLT : List α → Nat → Bool
  | _, 0 => false
  | [], _ + 1 => true
  | _ :: t, n + 1 => lenLT t n

/-! ## BitMap (bitmap.rs) -/

structure BitMap where
  vc : List Nat
deriving Repr, DecidableEq

namespace BitMap

/-- `BitMap::new`: all-zero bitmap of `size` bits, rounded up to whole 64-bit
words. -/
def new (size : Nat) : BitMap :=
  let vecLength := if size % 64 != 0 then size / 64 + 1 else size / 64
  ⟨List.replicate vecLength 0⟩

/-- `BitMap::set_bit`, returning the updated map together with the source's
`bool` result. Note that the source clears a bit with XOR (`^=`), not
AND-NOT: `set_bit(i, false)` flips bit `i`. -/
def set_bit (m : BitMap) (index : Nat) (value : Bool) : BitMap × Bool :=
  let arrayIndex := index / 64
  let bit := index % 64
  if arrayIndex ≥ m.vc.length then (m, false)
  else
    let w := m.vc.getD arrayIndex 0
    let w2 := if value then w ||| (1 <<< bit) else w ^^^ (1 <<< bit)
    (⟨m.vc.set arrayIndex w2⟩, true)

/-- `BitMap::bit_at`. -/
def bit_at (m : BitMap) (index : Nat) : Option Bool :=
  let arrayIndex := index / 64
  let bit := index % 64
  if arrayIndex ≥ m.vc.length then none
  else
    let w := m.vc.getD arrayIndex 0
    some (((w >>> bit) &&& 1) == 1)

/-- `BitMap::len`: number of bits (always a multiple of 64). -/
def len (m : BitMap) : Nat := m.vc.length * 64

/-- One byte of `BitMap::as_bytes`: bits `x`..`x+7` of word `n` assembled bit
by bit, exactly as the inner source loop does. -/
def asBytesByte (n x : Nat) : Nat :=
  (List.range' 1 7).foldl (fun r offset => r ||| ((((n >>> (x + offset)) &&& 1) <<< offset)))
    ((n >>> x) &&& 1)

/-- `BitMap::as_bytes`: little-endian byte serialisation. -/
def as_bytes (m : BitMap) : List Nat :=
  (m.vc.map (fun n => (List.range 8).map (fun i => asBytesByte n (i * 8)))).flatten

/-- `u64::count_zeros` of a 64-bit word. -/
def u64CountZeros (w : Nat) : Nat :=
  (List.range 64).countP (fun i => ((w >>> i) &&& 1) == 0)

/-- `BitMap::count_zeros_up_to`. The tail loop of the source reads
`bit_at(chunks + i)` (not `chunks * 64 + i`); this is reproduced faithfully.
The source `unwrap()` cannot panic there because `chunks + i < vc.len() * 64`
whenever `index < len`; the `getD false` default is therefore never used. -/
def count_zeros_up_to (m : BitMap) (index : Nat) : Option Nat :=
  if index ≥ m.len then none
  else
    let chunks := index / 64
    let chunkIndex := index % 64
    let sum := ((m.vc.take chunks).map u64CountZeros).sum
    let sum :=
      if chunkIndex != 0 then
        sum + (List.range chunkIndex).countP (fun i => (m.bit_at (chunks + i)).getD false == false)
      else sum
    some sum

/-- Modelled from the spec: `BitMap::find_next_0_index_up_to` is called
throughout `disk.rs` but its definition is not among the provided sources.
Spec §4.A lists the operation `find_first_zero_up_to(i)`: the lowest clear-bit
index strictly below `i`, `None` if there is none. -/
def find_next_0_index_up_to (m : BitMap) (limit : Nat) : Option Nat :=
  (List.range limit).find? (fun i => m.bit_at i == some false)

/-- One 64-bit word assembled from eight bytes, as the inner loop of
`BitMap::fill_from_bytes` does. -/
def wordFromBytes (bytes : List Nat) (i : Nat) : Nat :=
  (List.range' 1 7).foldl (fun n p => n ||| ((bytes.getD (i + p) 0) <<< (p * 8)))
    (bytes.getD i 0)

/-- `BitMap::from_bytes`: a fresh `new(len * 8)` bitmap filled word by word by
`fill_from_bytes` (which writes the first `len / 8` words and leaves any
rounding-up tail at zero). -/
def from_bytes (bytes : List Nat) : BitMap :=
  let m := new (bytes.length * 8)
  let filled := (List.range (bytes.length / 8)).map (fun b => wordFromBytes bytes (b * 8))
  ⟨filled ++ m.vc.drop (bytes.length / 8)⟩

end BitMap

/-! ## Block codecs (disk_blocks/inode.rs, tag_block.rs, super_block.rs) -/

structure Extent where
  start : Nat
  /-- Source field `end` (a Lean keyword); inclusive end block index. -/
  stop : Nat
deriving Repr, DecidableEq

/-- `Extent::zeroed`. -/
def Extent.zeroed : Extent := ⟨0, 0⟩

/-- `Extent::size` (bytes of the serialised record). -/
def Extent.recordSize : Nat := 16

structure INodeFlags where
  valid : Bool
  read : Bool
  write : Bool
  execute : Bool
deriving Repr, DecidableEq

namespace INodeFlags

def new (valid read write execute : Bool) : INodeFlags := ⟨valid, read, write, execute⟩

/-- `INodeFlags::from_u8`. -/
def from_u8 (n : Nat) : INodeFlags :=
  new (((n >>> 7) &&& 1) == 1) (((n >>> 6) &&& 1) == 1) (((n >>> 5) &&& 1) == 1)
    (((n >>> 4) &&& 1) == 1)

/-- `INodeFlags::to_u8`. -/
def to_u8 (f : INodeFlags) : Nat :=
  let res := 0
  let res := if f.valid then res ||| (1 <<< 7) else res
  let res := if f.read then res ||| (1 <<< 6) else res
  let res := if f.write then res ||| (1 <<< 5) else res
  let res := if f.execute then res ||| (1 <<< 4) else res
  res

end INodeFlags

structure TagFlags where
  read : Bool
  write : Bool
deriving Repr, DecidableEq

namespace TagFlags

def new (read write : Bool) : TagFlags := ⟨read, write⟩

/-- `TagFlags::as_u8`. -/
def as_u8 (f : TagFlags) : Nat :=
  let result := 0
  let result := if f.read then result ||| 128 else result
  let result := if f.write then result ||| 64 else result
  result

/-- `TagFlags::from_u8`. -/
def from_u8 (n : Nat) : TagFlags :=
  new (((n >>> 7) &&& 1) == 1) (((n >>> 6) &&& 1) == 1)

end TagFlags

/-- `INode` (256 bytes on disk). `name` models the `[char; 125]` array as the
list of its 125 code points. -/
structure INode where
  index : Nat
  name : List Nat
  size : Nat
  flags : INodeFlags
  access_time : Nat
  modified_time : Nat
  creation_time : Nat
  checksum : Nat
  indirect_block : Nat
  num_extents : Nat
  blocks : List Extent
deriving Repr, DecidableEq

namespace INode

def recordSize : Nat := 256

/-- `ByteSerializable::to_bytes` for `INode`. The name chars are written with
`*c as u8`, i.e. truncated modulo 256. -/
def to_bytes (b : INode) : List Nat :=
  leWrite 8 b.index ++ b.name.map (· % 256) ++ leWrite 8 b.size ++ [b.flags.to_u8]
    ++ leWrite 8 b.access_time ++ leWrite 8 b.modified_time ++ leWrite 8 b.creation_time
    ++ [b.checksum] ++ leWrite 8 b.indirect_block ++ [b.num_extents]
    ++ (b.blocks.map (fun e => leWrite 8 e.start ++ leWrite 8 e.stop)).flatten

/-- `Checksum::perform_checksum` for `INode`. -/
def perform_checksum (b : INode) : Bool := byteSum b.to_bytes == 0

/-- `Checksum::set_checksum` for `INode`: zero the checksum byte, then store
`0u8.wrapping_sub(sum)`. -/
def set_checksum (b : INode) : INode :=
  let b0 := { b with checksum := 0 }
  { b0 with checksum := (256 - byteSum b0.to_bytes) % 256 }

/-- `ByteSerializable::from_bytes` for `INode`. -/
def from_bytes (bytes : List Nat) : Option INode :=
  if lenLT bytes 256 then none
  else
    let index := leRead 8 bytes
    let name := (bytes.drop 8).take 125
    let size := leRead 8 (bytes.drop 133)
    let flags := INodeFlags.from_u8 (bytes.getD 141 0)
    let access_time := leRead 8 (bytes.drop 142)
    let modified_time := leRead 8 (bytes.drop 150)
    let creation_time := leRead 8 (bytes.drop 158)
    let checksum := bytes.getD 166 0
    let indirect_block := leRead 8 (bytes.drop 167)
    let num_extents := bytes.getD 175 0
    let blocks := (List.range 5).map (fun i =>
      Extent.mk (leRead 8 (bytes.drop (176 + 16 * i))) (leRead 8 (bytes.drop (184 + 16 * i))))
    let s : INode := ⟨index, name, size, flags, access_time, modified_time, creation_time,
      checksum, indirect_block, num_extents, blocks⟩
    if s.perform_checksum then some s else none

end INode

/-- `IndirectINode` (one block on disk; `maximum_extents` is not serialised). -/
structure IndirectINode where
  checksum : Nat
  reserved : Nat
  next : Nat
  num_extents : Nat
  pointers : List Extent
  maximum_extents : Nat
deriving Repr, DecidableEq

namespace IndirectINode

/-- `IndirectINode::NON_EXPANDABLE_SIZE`. -/
def nonExpandableSize : Nat := 1 + 1 + 2 + 8

/-- `IndirectINode::max_extents_for_blocksize`. -/
def max_extents_for_blocksize (blocksize : Nat) : Nat :=
  (blocksize - nonExpandableSize) / Extent.recordSize

/-- `ByteSerializable::to_bytes` for `IndirectINode`. -/
def to_bytes (b : IndirectINode) : List Nat :=
  [b.checksum, b.reserved] ++ leWrite 8 b.next ++ leWrite 2 b.num_extents
    ++ (b.pointers.map (fun e => leWrite 8 e.start ++ leWrite 8 e.stop)).flatten

def perform_checksum (b : IndirectINode) : Bool := byteSum b.to_bytes == 0

def set_checksum (b : IndirectINode) : IndirectINode :=
  let b0 := { b with checksum := 0 }
  { b0 with checksum := (256 - byteSum b0.to_bytes) % 256 }

/-- `ByteSerializable::from_bytes` for `IndirectINode`; the deserialised value
carries `maximum_extents = 0`. -/
def from_bytes (bytes : List Nat) : Option IndirectINode :=
  if lenLT bytes nonExpandableSize then none
  else
    let checksum := bytes.getD 0 0
    let reserved := bytes.getD 1 0
    let next := leRead 8 (bytes.drop 2)
    let num_extents := leRead 2 (bytes.drop 10)
    let extents := (List.range num_extents).map (fun i =>
      Extent.mk (leRead 8 (bytes.drop (12 + 16 * i))) (leRead 8 (bytes.drop (20 + 16 * i))))
    let res : IndirectINode := ⟨checksum, reserved, next, num_extents, extents, 0⟩
    if res.perform_checksum then some res else none

end IndirectINode

/-- `TagBlock` (256 bytes on disk); `name` models `[char; 132]`. -/
structure TagBlock where
  index : Nat
  name : List Nat
  checksum : Nat
  flags : TagFlags
  creation_time : Nat
  indirect : Nat
  number_of_pointers : Nat
  members : List Nat
deriving Repr, DecidableEq

namespace TagBlock

def recordSize : Nat := 256

/-- `TagBlock::MAXIMUM_LOCAL_MEMBERS`. -/
def maximumLocalMembers : Nat := 12

/-- `ByteSerializable::to_bytes` for `TagBlock`. -/
def to_bytes (b : TagBlock) : List Nat :=
  leWrite 8 b.index ++ b.name.map (· % 256) ++ [b.checksum] ++ [b.flags.as_u8]
    ++ leWrite 8 b.creation_time ++ leWrite 8 b.indirect ++ leWrite 2 b.number_of_pointers
    ++ (b.members.map (fun m => leWrite 8 m)).flatten

def perform_checksum (b : TagBlock) : Bool := byteSum b.to_bytes == 0

def set_checksum (b : TagBlock) : TagBlock :=
  let b0 := { b with checksum := 0 }
  { b0 with checksum := (256 - byteSum b0.to_bytes) % 256 }

/-- `ByteSerializable::from_bytes` for `TagBlock`. -/
def from_bytes (bytes : List Nat) : Option TagBlock :=
  if lenLT bytes 256 then none
  else
    let index := leRead 8 bytes
    let name := (bytes.drop 8).take 132
    let checksum := bytes.getD 140 0
    let flags := TagFlags.from_u8 (bytes.getD 141 0)
    let creation_time := leRead 8 (bytes.drop 142)
    let indirect := leRead 8 (bytes.drop 150)
    let number_of_pointers := leRead 2 (bytes.drop 158)
    let members := (List.range 12).map (fun i => leRead 8 (bytes.drop (160 + 8 * i)))
    let res : TagBlock := ⟨index, name, checksum, flags, creation_time, indirect,
      number_of_pointers, members⟩
    if res.perform_checksum then some res else none

end TagBlock

/-- `IndirectTagBlock` (one block on disk; `maximum_members` not serialised). -/
structure IndirectTagBlock where
  root : Nat
  checksum : Nat
  reserved : Nat
  next : Nat
  number_of_members : Nat
  members : List Nat
  maximum_members : Nat
deriving Repr, DecidableEq

namespace IndirectTagBlock

/-- `IndirectTagBlock::NON_EXPANDABLE_SIZE`. -/
def nonExpandableSize : Nat := 8 + 1 + 1 + 8 + 2

/-- `IndirectTagBlock::max_members_for_blocksize`. -/
def max_members_for_blocksize (blocksize : Nat) : Nat :=
  (blocksize - nonExpandableSize) / 8

/-- `ByteSerializable::to_bytes` for `IndirectTagBlock`. -/
def to_bytes (b : IndirectTagBlock) : List Nat :=
  leWrite 8 b.root ++ [b.checksum, b.reserved] ++ leWrite 8 b.next
    ++ leWrite 2 b.number_of_members ++ (b.members.map (fun m => leWrite 8 m)).flatten

def perform_checksum (b : IndirectTagBlock) : Bool := byteSum b.to_bytes == 0

def set_checksum (b : IndirectTagBlock) : IndirectTagBlock :=
  let b0 := { b with checksum := 0 }
  { b0 with checksum := (256 - byteSum b0.to_bytes) % 256 }

/-- `ByteSerializable::from_bytes` for `IndirectTagBlock`. -/
def from_bytes (bytes : List Nat) : Option IndirectTagBlock :=
  if lenLT bytes nonExpandableSize then none
  else
    let root := leRead 8 bytes
    let checksum := bytes.getD 8 0
    let reserved := bytes.getD 9 0
    let next := leRead 8 (bytes.drop 10)
    let number_of_members := leRead 2 (bytes.drop 18)
    let members := (List.range number_of_members).map (fun i => leRead 8 (bytes.drop (20 + 8 * i)))
    let res : IndirectTagBlock := ⟨root, checksum, reserved, next, number_of_members, members, 0⟩
    if res.perform_checksum then some res else none

/-- `IndirectTagBlock::to_bytes_padded`. -/
def to_bytes_padded (b : IndirectTagBlock) (block_size : Nat) : List Nat :=
  let bytes := b.to_bytes
  bytes ++ List.replicate (block_size - bytes.length) 0

end IndirectTagBlock

/-- `SuperBlock` (64 bytes at offset 0). -/
structure SuperBlock where
  magic : Nat
  block_size : Nat
  tag_count : Nat
  inode_count : Nat
  block_count : Nat
  tag_start_address : Nat
  inode_start_address : Nat
  data_start_address : Nat
  checksum : Nat
  reserved : List Nat
deriving Repr, DecidableEq

namespace SuperBlock

def CURRENT_VERSION : Nat := 0

def MAGIC : Nat := 0xa1df5000

def BYTES_PER_INODE : Nat := 2048

/-- `ByteSerializable::to_bytes` for `SuperBlock`; the three reserved bytes of
the buffer remain zero and `self.reserved` is not copied out. -/
def to_bytes (b : SuperBlock) : List Nat :=
  leWrite 4 b.magic ++ leWrite 8 b.block_size ++ leWrite 8 b.tag_count
    ++ leWrite 8 b.inode_count ++ leWrite 8 b.block_count ++ leWrite 8 b.tag_start_address
    ++ leWrite 8 b.inode_start_address ++ leWrite 8 b.data_start_address
    ++ [b.checksum] ++ [0, 0, 0]

def perform_checksum (b : SuperBlock) : Bool := byteSum b.to_bytes == 0

/-- `Checksum::set_checksum` for `SuperBlock`. Unlike the other four blocks the
source does not zero the field first; `SuperBlock::new` and `from_bytes`
supply `checksum = 0` at every call site. -/
def set_checksum (b : SuperBlock) : SuperBlock :=
  { b with checksum := (256 - byteSum b.to_bytes) % 256 }

/-- `ByteSerializable::from_bytes` for `SuperBlock`. -/
def from_bytes (bytes : List Nat) : Option SuperBlock :=
  if lenLT bytes 40 then none
  else
    let magic := leRead 4 bytes
    let block_size := leRead 8 (bytes.drop 4)
    let tag_count := leRead 8 (bytes.drop 12)
    let inode_count := leRead 8 (bytes.drop 20)
    let block_count := leRead 8 (bytes.drop 28)
    let tag_start_address := leRead 8 (bytes.drop 36)
    let inode_start_address := leRead 8 (bytes.drop 44)
    let data_start_address := leRead 8 (bytes.drop 52)
    let checksum := bytes.getD 60 0
    let res : SuperBlock := ⟨magic, block_size, tag_count, inode_count, block_count,
      tag_start_address, inode_start_address, data_start_address, checksum, [0, 0, 0]⟩
    if res.perform_checksum then some res else none

/-- `SuperBlock::new`. -/
def new (block_size disk_size : Nat) : SuperBlock :=
  let total_block_count := disk_size / block_size
  let total_inodes := (total_block_count * block_size) / BYTES_PER_INODE
  let inodes := (total_inodes / 4) * 3
  let tags := total_inodes / 4
  let inodes := inodes + (block_size - ((inodes * INode.recordSize) % block_size)) / INode.recordSize
  let tags := tags + (block_size - ((tags * TagBlock.recordSize) % block_size)) / TagBlock.recordSize
  let available_data_blocks := total_block_count
    - ((inodes * INode.recordSize) / block_size)
    - ((tags * TagBlock.recordSize) / block_size)
  set_checksum ⟨MAGIC ||| CURRENT_VERSION, block_size, tags, inodes, available_data_blocks,
    0, 0, 0, 0, [0, 0, 0]⟩

/-- `SuperBlock::blocks_for_inodes`. -/
def blocks_for_inodes (b : SuperBlock) : Nat := (b.inode_count * INode.recordSize) / b.block_size

/-- `SuperBlock::blocks_for_tags`. -/
def blocks_for_tags (b : SuperBlock) : Nat := (b.tag_count * TagBlock.recordSize) / b.block_size

/-- Modelled from the spec: the setters `set_tag_start_address`,
`set_inode_start_address`, `set_data_start_address` are called by
`make_new_filesystem_with_root` but are not among the provided sources.
Spec §4.B: every setter that mutates serialised state recomputes the checksum
before the object may be written back. -/
def set_tag_start_address (b : SuperBlock) (addr : Nat) : SuperBlock :=
  set_checksum { b with tag_start_address := addr, checksum := 0 }

/-- Modelled from the spec: see `set_tag_start_address`. -/
def set_inode_start_address (b : SuperBlock) (addr : Nat) : SuperBlock :=
  set_checksum { b with inode_start_address := addr, checksum := 0 }

/-- Modelled from the spec: see `set_tag_start_address`. -/
def set_data_start_address (b : SuperBlock) (addr : Nat) : SuperBlock :=
  set_checksum { b with data_start_address := addr, checksum := 0 }

end SuperBlock

/-! ## Block constructors and mutators -/

namespace INode

/-- `INode::new`: the name is truncated to the first 125 chars and NUL-padded;
the checksum is recomputed. -/
def new (index : Nat) (str_name : List Nat) (size : Nat) (flags : INodeFlags)
    (access_time modified_time creation_time : Nat) (indirect_pointer : Nat)
    (num_extents : Nat) (blocks : List Extent) : INode :=
  let name := str_name.take 125 ++ List.replicate (125 - (str_name.take 125).length) 0
  set_checksum ⟨index, name, size, flags, access_time, modified_time, creation_time, 0,
    indirect_pointer, num_extents, blocks⟩

/-- `INode::indirect_pointer` (0 encodes `None`). -/
def indirect_pointer (b : INode) : Option Nat :=
  if b.indirect_block = 0 then none else some b.indirect_block

/-- `INode::set_indirect_pointer`. -/
def set_indirect_pointer (b : INode) (newPtr : Option Nat) : INode :=
  let b := { b with indirect_block := newPtr.getD 0 }
  set_checksum b

/-- `INode::file_size`. -/
def file_size (b : INode) : Nat := b.size

/-- `INode::increase_file_size`. -/
def increase_file_size (b : INode) (amount : Nat) : INode :=
  set_checksum { b with size := b.size + amount }

/-- `INode::max_extents`. -/
def max_extents : Nat := 5

/-- `INode::append_extent`. -/
def append_extent (b : INode) (extent : Extent) : INode × Bool :=
  if b.num_extents ≥ max_extents then (b, false)
  else
    (set_checksum { b with blocks := b.blocks.set b.num_extents extent,
                           num_extents := b.num_extents + 1 }, true)

end INode

namespace IndirectINode

/-- `IndirectINode::new` (the source asserts `block_size > 256` and the
capacity bound; both hold at every call site). -/
def new (pointers : List Extent) (next block_size : Nat) : IndirectINode :=
  set_checksum ⟨0, 0, next, pointers.length, pointers, max_extents_for_blocksize block_size⟩

/-- `IndirectINode::next` (0 encodes `None`). -/
def nextPointer (b : IndirectINode) : Option Nat :=
  if b.next = 0 then none else some b.next

/-- `IndirectINode::set_next`. -/
def set_next (b : IndirectINode) (next : Nat) : IndirectINode :=
  set_checksum { b with next := next }

/-- `IndirectINode::append_extent`. -/
def append_extent (b : IndirectINode) (extent : Extent) : IndirectINode × Bool :=
  if b.num_extents ≥ b.maximum_extents then (b, false)
  else
    (set_checksum { b with pointers := b.pointers ++ [extent],
                           num_extents := b.num_extents + 1 }, true)

/-- `IndirectINode::last_extent`. -/
def last_extent (b : IndirectINode) : Option Extent := b.pointers.getLast?

/-- `IndirectINode::extents`. -/
def extents (b : IndirectINode) : List Extent := b.pointers

/-- `IndirectINode::set_maximum_extents_blocksize`. -/
def set_maximum_extents_blocksize (b : IndirectINode) (blocksize : Nat) : IndirectINode :=
  { b with maximum_extents := max_extents_for_blocksize blocksize }

end IndirectINode

namespace TagBlock

/-- `TagBlock::new_custom_creation_time`: name truncated to 132 chars and
NUL-padded; checksum recomputed. `TagBlock::new` merely converts the
`DateTime` to nanoseconds first. -/
def new_custom_creation_time (index : Nat) (name_str : List Nat) (flags : TagFlags)
    (creation_time indirect number_of_pointers : Nat) (members : List Nat) : TagBlock :=
  let name := name_str.take 132 ++ List.replicate (132 - (name_str.take 132).length) 0
  set_checksum ⟨index, name, 0, flags, creation_time, indirect, number_of_pointers, members⟩

/-- `TagBlock::new`. -/
def new (index : Nat) (name_str : List Nat) (flags : TagFlags)
    (creation_time indirect number_of_pointers : Nat) (members : List Nat) : TagBlock :=
  new_custom_creation_time index name_str flags creation_time indirect number_of_pointers members

/-- `TagBlock::indirect_pointer` (0 encodes `None`). -/
def indirect_pointer (b : TagBlock) : Option Nat :=
  if b.indirect = 0 then none else some b.indirect

/-- `TagBlock::set_indirect`. -/
def set_indirect (b : TagBlock) (indirect : Nat) : TagBlock :=
  set_checksum { b with indirect := indirect }

/-- `TagBlock::set_indirect_optional`. -/
def set_indirect_optional (b : TagBlock) (indirect : Option Nat) : TagBlock :=
  b.set_indirect (indirect.getD 0)

/-- `TagBlock::set_index` (the source does not recompute the checksum here). -/
def set_index (b : TagBlock) (index : Nat) : TagBlock := { b with index := index }

/-- `TagBlock::contains_member`: only the first `number_of_pointers` slots are
consulted. -/
def contains_member (b : TagBlock) (member : Nat) : Bool :=
  (b.members.take b.number_of_pointers).contains member

/-- `TagBlock::append_member`. -/
def append_member (b : TagBlock) (member : Nat) : TagBlock × Bool :=
  if b.number_of_pointers == maximumLocalMembers then (b, false)
  else
    (set_checksum { b with members := b.members.set b.number_of_pointers member,
                           number_of_pointers := b.number_of_pointers + 1 }, true)

/-- `TagBlock::remove_member_at`: shift-remove preserving order; the freed tail
slot is zeroed. -/
def remove_member_at (b : TagBlock) (index : Nat) : TagBlock × Bool :=
  if b.number_of_pointers = 0 then (b, false)
  else
    let n := b.number_of_pointers
    if index < n - 1 then
      let shifted := (List.range 12).map (fun i =>
        if index ≤ i && i < n - 1 then b.members.getD (i + 1) 0 else b.members.getD i 0)
      let shifted := shifted.set (n - 1) 0
      (set_checksum { b with members := shifted, number_of_pointers := n - 1 }, true)
    else if index != n - 1 then (b, false)
    else
      (set_checksum { b with members := b.members.set (n - 1) 0,
                             number_of_pointers := n - 1 }, true)

/-- Modelled from the spec: `TagBlock::same_name` is called by
`tags_with_names` but is not among the provided sources. Spec §4.F: a request
name matches "against the tag's NUL-stripped name". -/
def same_name (b : TagBlock) (other : List Nat) : Bool :=
  b.name.takeWhile (fun c => c != 0) == other

end TagBlock

namespace IndirectTagBlock

/-- `IndirectTagBlock::new` (the source asserts the capacity bounds; they hold
at every call site). -/
def new (root : Nat) (members : List Nat) (next block_size : Nat) : IndirectTagBlock :=
  set_checksum ⟨root, 0, 0, next, members.length, members,
    max_members_for_blocksize block_size⟩

/-- `IndirectTagBlock::next` (0 encodes `None`). -/
def nextPointer (b : IndirectTagBlock) : Option Nat :=
  if b.next = 0 then none else some b.next

/-- `IndirectTagBlock::set_next`. -/
def set_next (b : IndirectTagBlock) (next : Nat) : IndirectTagBlock :=
  set_checksum { b with next := next }

/-- `IndirectTagBlock::set_next_optional`. -/
def set_next_optional (b : IndirectTagBlock) (next : Option Nat) : IndirectTagBlock :=
  b.set_next (next.getD 0)

/-- `IndirectTagBlock::contains_member`. -/
def contains_member (b : IndirectTagBlock) (member : Nat) : Bool :=
  b.members.contains member

/-- `IndirectTagBlock::set_block_size`. -/
def set_block_size (b : IndirectTagBlock) (block_size : Nat) : IndirectTagBlock :=
  { b with maximum_members := max_members_for_blocksize block_size }

/-- `IndirectTagBlock::append_member`. -/
def append_member (b : IndirectTagBlock) (member : Nat) : IndirectTagBlock × Bool :=
  if b.number_of_members ≥ b.maximum_members then (b, false)
  else
    (set_checksum { b with members := b.members ++ [member],
                           number_of_members := b.number_of_members + 1 }, true)

/-- `IndirectTagBlock::remove_member_at` (a `Vec::remove`, shifting the tail
left). -/
def remove_member_at (b : IndirectTagBlock) (index : Nat) : IndirectTagBlock × Bool :=
  if b.number_of_members = 0 then (b, false)
  else if index ≥ b.number_of_members then (b, false)
  else
    (set_checksum { b with members := b.members.eraseIdx index,
                           number_of_members := b.number_of_members - 1 }, true)

end IndirectTagBlock

instance : Inhabited Extent := ⟨Extent.zeroed⟩

instance : Inhabited INodeFlags := ⟨INodeFlags.new false false false false⟩

instance : Inhabited TagFlags := ⟨TagFlags.new false false⟩

instance : Inhabited INode := ⟨⟨0, [], 0, default, 0, 0, 0, 0, 0, 0, []⟩⟩

instance : Inhabited IndirectINode := ⟨⟨0, 0, 0, 0, [], 0⟩⟩

instance : Inhabited TagBlock := ⟨⟨0, [], 0, default, 0, 0, 0, []⟩⟩

instance : Inhabited IndirectTagBlock := ⟨⟨0, 0, 0, 0, 0, [], 0⟩⟩

/-! ## Backing store (the external `DiskHandler` contract, modelled as a total
byte function: every read returns exactly the requested bytes and every write
succeeds) -/

abbrev Store := Nat → Nat

/-- `DiskHandler::write_bytes` on the modelled store. -/
def storeWrite (st : Store) (bytes : List Nat) (location : Nat) : Store :=
  fun a => if location ≤ a ∧ a < location + bytes.length then bytes.getD (a - location) 0 else st a

/-- `DiskHandler::read_bytes`: exactly `amount` bytes from `location` (built
head-first so that kernel evaluation of a prefix forces only that prefix). -/
def storeRead (st : Store) : Nat → Nat → List Nat
  | _, 0 => []
  | location, amount + 1 => st location :: storeRead st (location + 1) amount

/-- `DiskHandler::zero_range`: zero the half-open range. -/
def storeZero (st : Store) (start stop : Nat) : Store :=
  fun a => if start ≤ a ∧ a < stop then 0 else st a

/-- The `VoxFSError` constructors reached by the embedded operations. `Panic`
stands for the source's `panic!` / failed `assert!` / `unwrap()`-of-`None`
paths, none of which is reachable in the runs below. -/
inductive Err
  | InvalidBlockSize
  | CorruptedSuperBlock
  | CorruptedTag
  | CorruptedINode
  | NoFreeInode
  | NotEnoughFreeDataBlocks
  | CorruptedIndirectTag
  | CorruptedIndirectINode
  | BlockAlreadyAllocated
  | FailedToSetBitmapBit
  | FailedToFreeBlock
  | FailedToFreeINode
  | FailedToFreeTag
  | FailedIndirectTagAppend
  | CouldNotFindTag
  | CouldNotFindINode
  | TagAlreadyAppliedToINode
  | TagNotAppliedToINode
  | ExpectedIndirectNode
  | InvalidTagName
  | InvalidFileName
  | MoreNamesThanTagsProvided
  | NoTagsWithNames (remaining : List (List Nat))
  | Panic
deriving Repr, DecidableEq

/-- `DiskInfo` (disk_info.rs). -/
structure DiskInfo where
  number_of_tags : Nat
  free_tag_slots : Nat
  number_of_files : Nat
  free_file_slots : Nat
  block_size : Nat
  free_block_count : Nat
  free_block_space : Nat
deriving Repr, DecidableEq

/-- `FileSize` (disk.rs). -/
structure FileSize where
  physical_size : Nat
  actual_size : Nat
deriving Repr, DecidableEq

/-- `Disk` (disk.rs): the in-memory state plus the owned backing store. On
error the source leaves partial mutations in place; the `Except` embedding
returns no state on error, so every theorem below concerns the `ok` path or
the error value itself. -/
structure DiskState where
  store : Store
  super_block : SuperBlock
  tag_bitmap : BitMap
  inode_bitmap : BitMap
  block_bitmap : BitMap
  block_size : Nat
  blocks_for_tag_map : Nat
  blocks_for_inode_map : Nat
  blocks_for_block_map : Nat
  tags : List TagBlock
  inodes : List INode

def DEFAULT_BLOCK_SIZE : Nat := 4096

/-- `FORBIDDEN_CHARACTERS` of disk.rs, as code points
(# < dollar + percent > ! backtick ampersand asterisk quote pipe braces ? dquote = / colon backslash at). -/
def FORBIDDEN_CHARACTERS : List Nat :=
  [35, 60, 36, 43, 37, 62, 33, 96, 38, 42, 39, 124, 123, 125, 63, 34, 61, 47, 58, 92, 64]

/-- `rounded_to_alignment!` of disk.rs: bits `n` rounded up to blocks of
`block_size * 8` bits. -/
def roundedToAlignment (n block_size : Nat) : Nat :=
  if n % (block_size * 8) != 0 then n / (block_size * 8) + 1 else n / (block_size * 8)

namespace DiskState

/-- `Disk::validate_name`. -/
def validate_name (name : List Nat) (err : Err) : Except Err Unit :=
  if name.any (fun ch => FORBIDDEN_CHARACTERS.contains ch) then .error err else .ok ()

/-- `Disk::data_index_to_address`. -/
def data_index_to_address (s : DiskState) (index : Nat) : Nat :=
  s.super_block.data_start_address + index * s.block_size

/-- `Disk::inode_index_to_address`. -/
def inode_index_to_address (s : DiskState) (index : Nat) : Nat :=
  s.super_block.inode_start_address + index * INode.recordSize

/-- `Disk::tag_index_to_address`. -/
def tag_index_to_address (s : DiskState) (index : Nat) : Nat :=
  s.super_block.tag_start_address + index * TagBlock.recordSize

/-- `Disk::address_to_data_index`; the source asserts
`address > data_start_address` and panics otherwise. -/
def address_to_data_index (s : DiskState) (address : Nat) : Except Err Nat :=
  if address > s.super_block.data_start_address then
    .ok ((address - s.super_block.data_start_address) / s.block_size)
  else .error .Panic

/-- `Disk::write_to_address`. -/
def write_to_address (s : DiskState) (address : Nat) (content : List Nat) : DiskState :=
  { s with store := storeWrite s.store content address }

/-- `Disk::read_from_address`. -/
def read_from_address (s : DiskState) (address number_of_bytes : Nat) : List Nat :=
  storeRead s.store address number_of_bytes

/-- `Disk::read_between_range` (inclusive at both ends). -/
def read_between_range (s : DiskState) (start stop : Nat) : List Nat :=
  ((List.range' start (stop + 1 - start)).map
    (fun i => s.read_from_address (s.data_index_to_address i) s.block_size)).flatten

/-- `Disk::read_extent`. -/
def read_extent (s : DiskState) (extent : Extent) : List Nat :=
  s.read_between_range extent.start extent.stop

/-- `Disk::write_bitmaps`. -/
def write_bitmaps (s : DiskState) : DiskState :=
  let s := s.write_to_address s.block_size s.tag_bitmap.as_bytes
  let s := s.write_to_address (s.block_size + s.blocks_for_tag_map * s.block_size)
    s.inode_bitmap.as_bytes
  s.write_to_address
    (s.block_size + (s.blocks_for_tag_map + s.blocks_for_inode_map) * s.block_size)
    s.block_bitmap.as_bytes

/-- `Disk::available_data_blocks`. -/
def available_data_blocks (s : DiskState) : Nat :=
  (s.block_bitmap.count_zeros_up_to s.super_block.block_count).getD 0

/-- `Disk::number_of_tags`. -/
def number_of_tags (s : DiskState) : Nat := s.tags.length

/-- `Disk::free_tag_slots`. -/
def free_tag_slots (s : DiskState) : Nat :=
  (s.tag_bitmap.count_zeros_up_to s.super_block.tag_count).getD 0

/-- `Disk::number_of_files`. -/
def number_of_files (s : DiskState) : Nat := s.inodes.length

/-- `Disk::free_file_slots`. -/
def free_file_slots (s : DiskState) : Nat :=
  (s.inode_bitmap.count_zeros_up_to s.super_block.inode_count).getD 0

/-- `Disk::free_block_count`. -/
def free_block_count (s : DiskState) : Nat :=
  (s.block_bitmap.count_zeros_up_to s.super_block.block_count).getD 0

/-- `Disk::free_block_space`. -/
def free_block_space (s : DiskState) : Nat := s.free_block_count * s.block_size

/-- `Disk::list_tags` (no reload). -/
def list_tags (s : DiskState) : List TagBlock := s.tags

/-- `Disk::list_inodes` (no reload). -/
def list_inodes (s : DiskState) : List INode := s.inodes

/-- `Disk::disk_info` / `DiskInfo::from_disk`. -/
def disk_info (s : DiskState) : DiskInfo :=
  ⟨s.number_of_tags, s.free_tag_slots, s.number_of_files, s.free_file_slots, s.block_size,
    s.free_block_count, s.free_block_space⟩

/-- `Disk::locate_inode`. -/
def locate_inode (s : DiskState) (inode_index : Nat) : Except Err Nat :=
  match s.inodes.findIdx? (fun node => node.index == inode_index) with
  | some i => .ok i
  | none => .error .CouldNotFindINode

/-- `Disk::approximate_file_size`. -/
def approximate_file_size (s : DiskState) (inode_index : Nat) : Except Err Nat :=
  match s.inodes.find? (fun inode => inode.index == inode_index) with
  | some inode => .ok (inode.file_size + (s.block_size - inode.file_size % s.block_size))
  | none => .error .CouldNotFindINode

/-! ### Allocator (`Disk::find_blocks` / `Disk::find_block`) -/

/-- Inner scan of `find_blocks`: the source's `while i < block_count` loop that
finds the largest free run starting the search at `first_index`; returns the
chosen `(largest_start, largest_end)`. The source's `bit_at(i).unwrap()`
cannot panic because `i < block_count ≤ len`, so the `getD false` default is
never used. `fuel ≥ block_count - i` makes the structural recursion cover the
whole loop; callers pass `block_count`. -/
def findBlocksScan (bm : BitMap) (block_count needed_remaining : Nat) :
    (fuel start_index end_index largest_start largest_end i : Nat) → Nat × Nat
  | 0, _, _, largest_start, largest_end, _ => (largest_start, largest_end)
  | fuel + 1, start_index, end_index, largest_start, largest_end, i =>
    if i < block_count then
      if end_index - start_index + 1 ≥ needed_remaining then (start_index, end_index)
      else if !((bm.bit_at i).getD false) then
        findBlocksScan bm block_count needed_remaining fuel start_index (end_index + 1)
          largest_start largest_end (i + 1)
      else if end_index - start_index > largest_end - largest_start then
        findBlocksScan bm block_count needed_remaining fuel (i + 1) (i + 1) start_index end_index
          (i + 1)
      else
        findBlocksScan bm block_count needed_remaining fuel (i + 1) (i + 1) largest_start
          largest_end (i + 1)
    else (largest_start, largest_end)

/-- Rescan of `find_blocks` after committing a run that started at
`first_index`: the source `for` loop keeps the *last* clear bit it sees. -/
def findBlocksRescan (bm : BitMap) (block_count largest_end : Nat) : Option Nat :=
  (List.range' largest_end (block_count - largest_end)).foldl
    (fun acc i => if !((bm.bit_at i).getD false) then some i else acc) none

/-- Outer `while blocks_found < num_blocks_required` loop of `find_blocks`,
with explicit fuel (each iteration commits at least one block, so
`needed + 1` fuel suffices; exhausted fuel yields `none`). -/
def findBlocksLoop (bm : BitMap) (block_count needed : Nat) :
    (fuel first_index blocks_found : Nat) → List (Nat × Nat) → Option (List (Nat × Nat))
  | 0, _, _, _ => none
  | fuel + 1, first_index, blocks_found, acc =>
    if blocks_found < needed then
      let p := findBlocksScan bm block_count (needed - blocks_found) block_count first_index
        first_index first_index first_index (first_index + 1)
      let blocks_found := blocks_found + (p.2 - p.1 + 1)
      let acc := acc ++ [p]
      if p.1 == first_index then
        match findBlocksRescan bm block_count p.2 with
        | some i => findBlocksLoop bm block_count needed fuel i blocks_found acc
        | none => none
      else findBlocksLoop bm block_count needed fuel first_index blocks_found acc
    else some acc

/-- `Disk::find_blocks`: largest-first extent search. The source's two
`unwrap()` calls (on `count_zeros_up_to` and on the initial
`find_next_0_index_up_to`) panic on `None`; those paths surface as
`.error .Panic`. -/
def find_blocks (s : DiskState) (min_size : Nat) : Except Err (Option (List (Nat × Nat))) :=
  let bs := s.block_size
  let num_blocks_required := if min_size % bs != 0 then 1 + min_size / bs else min_size / bs
  match s.block_bitmap.count_zeros_up_to s.super_block.block_count with
  | none => .error .Panic
  | some z =>
    if z < num_blocks_required then .ok none
    else
      match s.block_bitmap.find_next_0_index_up_to s.super_block.block_count with
      | none => .error .Panic
      | some first =>
        .ok (findBlocksLoop s.block_bitmap s.super_block.block_count num_blocks_required
          (num_blocks_required + 1) first 0 [])

/-- `Disk::find_block`. -/
def find_block (s : DiskState) : Except Err (Option Nat) :=
  match s.block_bitmap.count_zeros_up_to s.super_block.block_count with
  | none => .error .Panic
  | some z =>
    if z < 1 then .ok none
    else .ok (s.block_bitmap.find_next_0_index_up_to s.super_block.block_count)

/-! ### Tag engine -/

/-- `Disk::store_tag_first_free`. On a full tag bitmap the source returns
`NoFreeInode` (sic). -/
def store_tag_first_free (s : DiskState) (tag : TagBlock) : Except Err (TagBlock × DiskState) :=
  match s.tag_bitmap.find_next_0_index_up_to s.super_block.tag_count with
  | none => .error .NoFreeInode
  | some index =>
    let tag := tag.set_index index
    let s := s.write_to_address (s.tag_index_to_address index) tag.to_bytes
    let r := s.tag_bitmap.set_bit index true
    if !r.2 then .error .Panic
    else
      let s := { s with tag_bitmap := r.1 }
      .ok (tag, s.write_bitmaps)

/-- `Disk::create_new_tag`. -/
def create_new_tag (s : DiskState) (name : List Nat) (flags : TagFlags) (now : Nat) :
    Except Err (TagBlock × DiskState) := do
  let _ ← validate_name name .InvalidTagName
  let tag := TagBlock.new 0 name flags now 0 0 (List.replicate 12 0)
  let (tag, s) ← s.store_tag_first_free tag
  .ok (tag, { s with tags := s.tags ++ [tag] })

/-- Chain walk of `apply_tag` over the indirect tag blocks: abort with
`TagAlreadyAppliedToINode` if any block contains the inode, otherwise return
the first block address with spare capacity together with the last block of
the chain and its location. `fuel` bounds the `next`-chain traversal. -/
def applyTagWalk (s : DiskState) (inodeIndex : Nat) :
    (fuel : Nat) → Option Nat → Option Nat → Option (IndirectTagBlock × Nat) →
    Except Err (Option Nat × Option (IndirectTagBlock × Nat))
  | 0, some _, _, _ => .error .Panic
  | _, none, free_addr, previous => .ok (free_addr, previous)
  | fuel + 1, some addr, free_addr, previous =>
    match IndirectTagBlock.from_bytes (s.read_from_address addr s.block_size) with
    | none => .error .CorruptedIndirectTag
    | some indirect_tag =>
      if indirect_tag.contains_member inodeIndex then .error .TagAlreadyAppliedToINode
      else
        let free_addr :=
          if free_addr.isNone
              && decide (indirect_tag.number_of_members
                < IndirectTagBlock.max_members_for_blocksize s.block_size) then
            some addr
          else free_addr
        applyTagWalk s inodeIndex fuel indirect_tag.nextPointer free_addr
          (some (indirect_tag, addr))

/-- `Disk::apply_tag`. -/
def apply_tag (s : DiskState) (fuel tag_index inode_index : Nat) : Except Err DiskState := do
  let li ← s.locate_inode inode_index
  let inode := s.inodes.getD li default
  let tag_self_index ←
    match s.tags.findIdx? (fun t => t.index == tag_index) with
    | some i => pure i
    | none => .error .CouldNotFindTag
  let tag := s.tags.getD tag_self_index default
  if tag.number_of_pointers ≥ TagBlock.maximumLocalMembers then
    if tag.contains_member inode.index then .error .TagAlreadyAppliedToINode
    else do
      let wr ← applyTagWalk s inode.index fuel tag.indirect_pointer none none
      match wr.1 with
      | none => do
        let indirect_tag := IndirectTagBlock.new tag.index [inode.index] 0 s.block_size
        let blockOpt ← s.find_block
        let index ← match blockOpt with
          | some index => pure index
          | none => .error .NotEnoughFreeDataBlocks
        let location := s.data_index_to_address index
        let r := s.block_bitmap.set_bit index true
        let s := { s with block_bitmap := r.1 }
        let s := s.write_to_address location (indirect_tag.to_bytes_padded s.block_size)
        let s := s.write_bitmaps
        match wr.2 with
        | some pv =>
          let pblock := pv.1.set_next location
          .ok (s.write_to_address pv.2 (pblock.to_bytes_padded s.block_size))
        | none =>
          let tag2 := tag.set_indirect location
          let s := { s with tags := s.tags.set tag_self_index tag2 }
          .ok (s.write_to_address (s.tag_index_to_address tag2.index) tag2.to_bytes)
      | some faddr =>
        match IndirectTagBlock.from_bytes (s.read_from_address faddr s.block_size) with
        | none => .error .CorruptedIndirectTag
        | some indirect =>
          let indirect := indirect.set_block_size s.block_size
          let ar := indirect.append_member inode.index
          if !ar.2 then .error .FailedIndirectTagAppend
          else .ok (s.write_to_address faddr (ar.1.to_bytes_padded s.block_size))
  else
    if tag.contains_member inode.index then .error .TagAlreadyAppliedToINode
    else
      let tag2 := (tag.append_member inode.index).1
      let s := { s with tags := s.tags.set tag_self_index tag2 }
      .ok (s.write_to_address (s.tag_index_to_address tag2.index) tag2.to_bytes)

/-- Chain walk of `remove_tag_from_inode_optional_prune`: find the first
indirect block containing the inode, shift-remove it there, pruning an
emptied block when requested. -/
def removeTagWalk (s : DiskState) (tli inodeIndex : Nat) (prune : Bool) :
    (fuel : Nat) → Option Nat → Option IndirectTagBlock → Option Nat → Except Err DiskState
  | 0, some _, _, _ => .error .Panic
  | _, none, _, _ => .error .TagNotAppliedToINode
  | fuel + 1, some address, parent, parent_address =>
    match IndirectTagBlock.from_bytes (s.read_from_address address s.block_size) with
    | none => .error .CorruptedIndirectTag
    | some block =>
      match block.members.findIdx? (fun m => m == inodeIndex) with
      | some i =>
        let block := (block.remove_member_at i).1
        if prune && block.number_of_members == 0 then do
          let index ← s.address_to_data_index address
          match parent with
          | some p =>
            let cp := p.set_next_optional block.nextPointer
            let r := s.block_bitmap.set_bit index false
            let s := { s with block_bitmap := r.1 }
            let s := s.write_bitmaps
            .ok (s.write_to_address (parent_address.getD 0) (cp.to_bytes_padded s.block_size))
          | none =>
            let tag := (s.tags.getD tli default).set_indirect_optional block.nextPointer
            let s := { s with tags := s.tags.set tli tag }
            let r := s.block_bitmap.set_bit index false
            let s := { s with block_bitmap := r.1 }
            let s := s.write_bitmaps
            .ok (s.write_to_address (s.tag_index_to_address tag.index) tag.to_bytes)
        else .ok (s.write_to_address address (block.to_bytes_padded s.block_size))
      | none => removeTagWalk s tli inodeIndex prune fuel block.nextPointer (some block)
          (some address)

/-- `Disk::remove_tag_from_inode_optional_prune`. The local search runs over
all 12 member slots of the `TagBlock` (not only the first
`number_of_pointers`), as the source does. -/
def remove_tag_from_inode_optional_prune (s : DiskState) (fuel tag_index inode_index : Nat)
    (prune : Bool) : Except Err DiskState := do
  let li ← s.locate_inode inode_index
  let inode := s.inodes.getD li default
  let tli ←
    match s.tags.findIdx? (fun t => t.index == tag_index) with
    | some i => pure i
    | none => .error .CouldNotFindTag
  let tag := s.tags.getD tli default
  match tag.members.findIdx? (fun m => m == inode.index) with
  | some i =>
    let tag2 := (tag.remove_member_at i).1
    let s := { s with tags := s.tags.set tli tag2 }
    .ok (s.write_to_address (s.tag_index_to_address tag2.index) tag2.to_bytes)
  | none => removeTagWalk s tli inode.index prune fuel tag.indirect_pointer none none

/-- `Disk::remove_tag_from_inode` (prune = true). -/
def remove_tag_from_inode (s : DiskState) (fuel tag_index inode_index : Nat) :
    Except Err DiskState :=
  s.remove_tag_from_inode_optional_prune fuel tag_index inode_index true

/-! ### File engine -/

/-- Block indices of an extent given as a `(start, end)` pair (inclusive). -/
def extentBlockIndices (e : Nat × Nat) : List Nat := List.range' e.1 (e.2 + 1 - e.1)

/-- Safety pass of `create_new_file` / `append_file_bytes`: error
`BlockAlreadyAllocated` on the first candidate block whose bit is set
(`Panic` models the source's `unwrap()` of an out-of-range `bit_at`). -/
def checkBlocksFree (bm : BitMap) : List Nat → Except Err Unit
  | [] => .ok ()
  | i :: rest =>
    match bm.bit_at i with
    | none => .error .Panic
    | some true => .error .BlockAlreadyAllocated
    | some false => checkBlocksFree bm rest

/-- Commit pass of `create_new_file`: mark each block of each extent and write
the corresponding `block_size`-stride slice of the contents. -/
def commitExtents (s : DiskState) (contents : List Nat) (extents : List (Nat × Nat)) :
    DiskState :=
  (((extents.map extentBlockIndices).flatten).foldl
    (fun (acc : DiskState × Nat) i =>
      let s := acc.1
      let contents_offset := acc.2
      let s := { s with block_bitmap := (s.block_bitmap.set_bit i true).1 }
      let content_slice :=
        if contents_offset + s.block_size > contents.length then contents.drop contents_offset
        else (contents.drop contents_offset).take s.block_size
      let s := s.write_to_address (s.data_index_to_address i) content_slice
      (s, contents_offset + s.block_size)) (s, 0)).1

/-- Extent grouping of `create_new_file` for the indirect chain. The source
iterates `for mut i in 5..extents.len()` and the inner `i += 1` does not
advance the iterator, so consecutive groups overlap: group `i` holds
`extents[i .. i + amount_per_indirect]`. -/
def indirectGroups (extents : List (Nat × Nat)) (amount_per : Nat) : List (List (Nat × Nat)) :=
  (List.range' 5 (extents.length - 5)).map (fun i => (extents.drop i).take amount_per)

/-- Tail-to-head construction of the indirect inode chain in
`create_new_file`; returns the final state and the address of the chain head. -/
def buildIndirectChain (s : DiskState) :
    List (List (Nat × Nat)) → Nat → Except Err (DiskState × Nat)
  | [], previous_address => .ok (s, previous_address)
  | g :: rest, previous_address =>
    match s.block_bitmap.find_next_0_index_up_to s.super_block.block_count with
    | none => .error .NotEnoughFreeDataBlocks
    | some block_index =>
      let address := s.data_index_to_address block_index
      let block := IndirectINode.new (g.map (fun p => Extent.mk p.1 p.2)) previous_address
        s.block_size
      let s := s.write_to_address address block.to_bytes
      let s := { s with block_bitmap := (s.block_bitmap.set_bit block_index true).1 }
      buildIndirectChain s rest address

/-- `Disk::create_new_file`. -/
def create_new_file (s : DiskState) (name : List Nat) (flags : INodeFlags)
    (contents : List Nat) (now : Nat) : Except Err (INode × DiskState) := do
  let _ ← validate_name name .InvalidFileName
  let inode_index ←
    match s.inode_bitmap.find_next_0_index_up_to s.super_block.inode_count with
    | some i => pure i
    | none => .error .NoFreeInode
  let extentsOpt ← s.find_blocks contents.length
  let extents ←
    match extentsOpt with
    | some e => pure e
    | none => .error .NotEnoughFreeDataBlocks
  let _ ← checkBlocksFree s.block_bitmap (extents.map extentBlockIndices).flatten
  let s := commitExtents s contents extents
  let (inode, s) ←
    if extents.length > 5 then do
      let inode_extents := (List.range 5).map (fun i =>
        Extent.mk (extents.getD i (0, 0)).1 (extents.getD i (0, 0)).2)
      let amount_per := IndirectINode.max_extents_for_blocksize s.block_size
      let built ← buildIndirectChain s (indirectGroups extents amount_per).reverse 0
      let inode := INode.new inode_index name contents.length flags now now now built.2
        (extents.length % 256) inode_extents
      pure (inode, built.1)
    else do
      let extent_blocks := (List.range 5).map (fun i =>
        if i < extents.length then Extent.mk (extents.getD i (0, 0)).1 (extents.getD i (0, 0)).2
        else Extent.zeroed)
      let inode := INode.new inode_index name contents.length flags now now now 0
        (extents.length % 256) extent_blocks
      pure (inode, s)
  let s := s.write_to_address (s.inode_index_to_address inode_index) inode.to_bytes
  let r := s.inode_bitmap.set_bit inode_index true
  if !r.2 then .error .Panic
  else
    let s := { s with inode_bitmap := r.1 }
    let s := s.write_bitmaps
    .ok (inode, { s with inodes := s.inodes ++ [inode] })

/-- Chain walk of `delete_file`: collect the extents of every indirect inode
block and the data-block index of every indirect block itself. -/
def deleteFileWalk (s : DiskState) :
    (fuel : Nat) → Option Nat → List Extent → List Nat → Except Err (List Extent × List Nat)
  | 0, some _, _, _ => .error .Panic
  | _, none, extents, indirect_indexes => .ok (extents, indirect_indexes)
  | fuel + 1, some addr, extents, indirect_indexes =>
    match IndirectINode.from_bytes (s.read_from_address addr s.block_size) with
    | none => .error .CorruptedIndirectINode
    | some indirect => do
      let data_block_index ← s.address_to_data_index addr
      deleteFileWalk s fuel indirect.nextPointer (extents ++ indirect.extents)
        (indirect_indexes ++ [data_block_index])

/-- Tag-reference hygiene of `delete_file`: try to remove the inode from every
cached tag, swallowing `TagNotAppliedToINode`. -/
def deleteFileTagRemoval (fuel inodeIndex : Nat) :
    List Nat → DiskState → Except Err DiskState
  | [], s => .ok s
  | index :: rest, s =>
    match s.remove_tag_from_inode fuel index inodeIndex with
    | .ok s2 => deleteFileTagRemoval fuel inodeIndex rest s2
    | .error .TagNotAppliedToINode => deleteFileTagRemoval fuel inodeIndex rest s
    | .error e => .error e

/-- Free a list of data-block indices via `set_bit(_, false)`;
`FailedToFreeBlock` when the bitmap rejects the index. -/
def freeBlockIndices : List Nat → DiskState → Except Err DiskState
  | [], s => .ok s
  | i :: rest, s =>
    let r := s.block_bitmap.set_bit i false
    if !r.2 then .error .FailedToFreeBlock
    else freeBlockIndices rest { s with block_bitmap := r.1 }

/-- `Disk::delete_file`. Note that the source extends the freed extent list
with **all five** inline `blocks()` slots of the inode, including the zeroed
ones beyond `num_extents`. -/
def delete_file (s : DiskState) (fuel inode_index : Nat) : Except Err DiskState := do
  let local_index ← s.locate_inode inode_index
  let inode := s.inodes.getD local_index default
  let walk ← deleteFileWalk s fuel inode.indirect_pointer [] []
  let extents := walk.1 ++ inode.blocks
  let indices := s.tags.map (fun t => t.index)
  let s ← deleteFileTagRemoval fuel inode.index indices s
  let s ← freeBlockIndices walk.2 s
  let s ← freeBlockIndices ((extents.map (fun e => List.range' e.start (e.stop + 1 - e.start))).flatten) s
  let r := s.inode_bitmap.set_bit inode.index false
  if !r.2 then .error .FailedToFreeINode
  else
    let s := { s with inode_bitmap := r.1 }
    let s := { s with inodes := s.inodes.eraseIdx local_index }
    .ok s.write_bitmaps

/-! ### Reads and queries -/

/-- The extent-accumulation step shared by both loops of
`Disk::read_file_bytes`: append the extent's data, truncating once the
running total would exceed `num_bytes`, and advance the `amount_read`
counter. -/
def readStep (s : DiskState) (num_bytes : Nat) (acc : List Nat × Nat) (extent : Extent) :
    List Nat × Nat :=
  let content := s.read_extent extent
  if content.length + acc.1.length > num_bytes then
    let bytes_to_read := num_bytes - acc.1.length
    (acc.1 ++ content.take bytes_to_read, acc.2 + bytes_to_read)
  else (acc.1 ++ content, acc.2 + content.length)

/-- `Disk::read_file_bytes`, inline-extent pass: accumulate each extent's
data, truncating once the running total would exceed `num_bytes`; returns the
accumulated bytes and the source's `amount_read` counter. -/
def readInlinePass (s : DiskState) (num_bytes : Nat) (inode : INode) : List Nat × Nat :=
  (List.range inode.num_extents).foldl
    (fun acc extent_index => s.readStep num_bytes acc (inode.blocks.getD extent_index default))
    ([], 0)

/-- `Disk::read_file_bytes`, indirect pass (`while amount_read < num_bytes`),
with fuel bounding the chain traversal. -/
def readIndirectPass (s : DiskState) (num_bytes : Nat) :
    (fuel : Nat) → Option Nat → List Nat → Nat → Except Err (List Nat)
  | 0, _, result, amount_read =>
    if amount_read < num_bytes then .error .Panic else .ok result
  | fuel + 1, next, result, amount_read =>
    if amount_read < num_bytes then
      match next with
      | none => .error .ExpectedIndirectNode
      | some addr =>
        match IndirectINode.from_bytes (s.read_from_address addr s.block_size) with
        | none => .error .CorruptedIndirectINode
        | some indirect =>
          let acc := indirect.extents.foldl
            (fun acc extent => s.readStep num_bytes acc extent) (result, amount_read)
          readIndirectPass s num_bytes fuel indirect.nextPointer acc.1 acc.2
    else .ok result

/-- `Disk::read_file_bytes` (a `&self` method: the returned state is the input
state). -/
def read_file_bytes (s : DiskState) (fuel inode_index num_bytes : Nat) :
    Except Err (List Nat × DiskState) := do
  let li ← s.locate_inode inode_index
  let inode := s.inodes.getD li default
  let num_bytes :=
    if num_bytes > inode.file_size then inode.file_size
    else if num_bytes = 0 then inode.file_size
    else num_bytes
  let acc := readInlinePass s num_bytes inode
  let result ← readIndirectPass s num_bytes fuel inode.indirect_pointer acc.1 acc.2
  .ok (result, s)

/-- `Disk::read_file`. -/
def read_file (s : DiskState) (fuel inode_index : Nat) : Except Err (List Nat × DiskState) :=
  s.read_file_bytes fuel inode_index 0

/-- Chain walk of `Disk::file_size`, summing `(end − start + 1) · block_size`
over the indirect extents. -/
def fileSizeWalk (s : DiskState) : (fuel : Nat) → Option Nat → Nat → Except Err Nat
  | 0, some _, _ => .error .Panic
  | _, none, acc => .ok acc
  | fuel + 1, some addr, acc =>
    match IndirectINode.from_bytes (s.read_from_address addr s.block_size) with
    | none => .error .CorruptedIndirectINode
    | some indirect =>
      let acc := indirect.extents.foldl
        (fun a e => a + (e.stop - e.start + 1) * s.block_size) acc
      fileSizeWalk s fuel indirect.nextPointer acc

/-- `Disk::file_size` (a `&self` method: the returned state is the input
state). -/
def file_size (s : DiskState) (fuel inode_index : Nat) : Except Err (FileSize × DiskState) := do
  let li ← s.locate_inode inode_index
  let inode := s.inodes.getD li default
  let actual_size := inode.file_size
  let physical := (List.range inode.num_extents).foldl
    (fun a i =>
      let extent := inode.blocks.getD i default
      a + (extent.stop - extent.start + 1) * s.block_size) 0
  let physical ← fileSizeWalk s fuel inode.indirect_pointer physical
  .ok (⟨physical, actual_size⟩, s)

/-- Member-resolution loop shared by both branches of `load_nodes_with_tag`:
walk the inode cache in order, consuming members as they are matched. -/
def resolveMembers (inodes : List INode) (members : List Nat) : List INode × List Nat :=
  inodes.foldl
    (fun (acc : List INode × List Nat) node =>
      if acc.2.isEmpty then acc
      else
        match acc.2.findIdx? (fun m => m == node.index) with
        | some i => (acc.1 ++ [node], acc.2.eraseIdx i)
        | none => acc) ([], members)

/-- Indirect-chain part of `Disk::load_nodes_with_tag`. -/
def loadNodesChain (s : DiskState) : (fuel : Nat) → Option Nat → List INode →
    Except Err (List INode)
  | 0, some _, _ => .error .Panic
  | _, none, nodes => .ok nodes
  | fuel + 1, some addr, nodes =>
    match IndirectTagBlock.from_bytes (s.read_from_address addr s.block_size) with
    | none => .error .CorruptedIndirectTag
    | some block =>
      loadNodesChain s fuel block.nextPointer (nodes ++ (resolveMembers s.inodes block.members).1)

/-- `Disk::load_nodes_with_tag`. -/
def load_nodes_with_tag (s : DiskState) (fuel : Nat) (tag : TagBlock) :
    Except Err (List INode) :=
  let nodes := (resolveMembers s.inodes (tag.members.take tag.number_of_pointers)).1
  match tag.indirect_pointer with
  | some indirect_address => loadNodesChain s fuel (some indirect_address) nodes
  | none => .ok nodes

/-- `Disk::list_nodes_with_tag` (a `&self` method: the returned state is the
input state). -/
def list_nodes_with_tag (s : DiskState) (fuel tag_index : Nat) :
    Except Err (List INode × DiskState) :=
  match s.tags.find? (fun t => t.index == tag_index) with
  | none => .error .CouldNotFindTag
  | some tag =>
    match s.load_nodes_with_tag fuel tag with
    | .ok nodes => .ok (nodes, s)
    | .error e => .error e

/-- Iterative intersection of `Disk::list_nodes_with_tags`. -/
def intersectTagNodes (s : DiskState) (fuel : Nat) :
    List TagBlock → List INode → Except Err (List INode)
  | [], nodes => .ok nodes
  | tag :: rest, nodes =>
    match s.load_nodes_with_tag fuel tag with
    | .error e => .error e
    | .ok tag_nodes =>
      let nodes := if nodes.isEmpty then tag_nodes
        else nodes.filter (fun n => tag_nodes.contains n)
      if nodes.isEmpty then .ok nodes else intersectTagNodes s fuel rest nodes

/-- `Disk::list_nodes_with_tags` (a `&self` method: the returned state is the
input state). -/
def list_nodes_with_tags (s : DiskState) (fuel : Nat) (tag_indices : List Nat) :
    Except Err (List INode × DiskState) :=
  let found := s.tags.foldl
    (fun (acc : List TagBlock × List Nat) t =>
      if acc.2.isEmpty then acc
      else
        match acc.2.findIdx? (fun e => e == t.index) with
        | some i => (acc.1 ++ [t], acc.2.eraseIdx i)
        | none => acc) ([], tag_indices)
  if !found.2.isEmpty then .error .CouldNotFindTag
  else
    match intersectTagNodes s fuel found.1 [] with
    | .ok nodes => .ok (nodes, s)
    | .error e => .error e

/-- `Disk::tags_with_names` (a `&self` method: the returned state is the input
state). -/
def tags_with_names (s : DiskState) (names : List (List Nat)) :
    Except Err (List Nat × DiskState) :=
  if names.length > s.tags.length then .error .MoreNamesThanTagsProvided
  else
    let acc := s.tags.foldl
      (fun (acc : List Nat × List (List Nat)) tag =>
        if acc.2.isEmpty then acc
        else
          match acc.2.findIdx? (fun n => tag.same_name n) with
          | some i => (acc.1 ++ [tag.index], acc.2.eraseIdx i)
          | none => acc) ([], names)
    if acc.2.length > 0 then .error (.NoTagsWithNames acc.2)
    else .ok (acc.1, s)

/-! ### Mount / format -/

/-- `Disk::make_new_filesystem_with_root`. `disk_size` stands for
`handler.disk_size()` and `now` for `manager.current_time()`. -/
def make_new_filesystem_with_root (store : Store) (disk_size now : Nat)
    (root_tag : TagBlock) : Except Err DiskState := do
  let block_size := DEFAULT_BLOCK_SIZE
  if block_size % 64 != 0 then .error .InvalidBlockSize
  else
    let super_block := SuperBlock.new block_size disk_size
    let store := storeZero store 0 block_size
    let offset := DEFAULT_BLOCK_SIZE
    let tag_bitmap := BitMap.new super_block.tag_count
    let inode_bitmap := BitMap.new super_block.inode_count
    let block_bitmap := BitMap.new super_block.block_count
    let blocks_for_tag_map := roundedToAlignment tag_bitmap.len block_size
    let blocks_for_inode_map := roundedToAlignment inode_bitmap.len block_size
    let blocks_for_block_map := roundedToAlignment block_bitmap.len block_size
    let offset := offset
      + (blocks_for_tag_map + blocks_for_inode_map + blocks_for_block_map) * block_size
    let super_block := super_block.set_tag_start_address offset
    let offset := offset + block_size * super_block.blocks_for_tags
    let super_block := super_block.set_inode_start_address offset
    let offset := offset + block_size * super_block.blocks_for_inodes
    let super_block := super_block.set_data_start_address offset
    let store := storeWrite store super_block.to_bytes 0
    let s : DiskState := ⟨store, super_block, tag_bitmap, inode_bitmap, block_bitmap,
      block_size, blocks_for_tag_map, blocks_for_inode_map, blocks_for_block_map,
      [root_tag], []⟩
    let (_, s) ← s.store_tag_first_free root_tag
    .ok s.write_bitmaps

/-- The default root tag name "root". -/
def rootName : List Nat := [114, 111, 111, 116]

/-- `Disk::make_new_filesystem`. -/
def make_new_filesystem (store : Store) (disk_size now : Nat) : Except Err DiskState :=
  make_new_filesystem_with_root store disk_size now
    (TagBlock.new 0 rootName (TagFlags.new true true) now 0 0 (List.replicate 12 0))

/-- `Disk::load_tags`: read the `TagBlock` of every set tag-bitmap bit. The
source `unwrap()`s `bit_at`; `getD false` is only reached when the bit is in
range, as it is for every state built by `open_disk`. -/
def load_tags (s : DiskState) : Except Err (List TagBlock) :=
  (List.range s.super_block.tag_count).foldlM
    (fun acc i =>
      if (s.tag_bitmap.bit_at i).getD false then
        match TagBlock.from_bytes
            (s.read_from_address (s.tag_index_to_address i) TagBlock.recordSize) with
        | some tag => .ok (acc ++ [tag])
        | none => .error .CorruptedTag
      else .ok acc) []

/-- `Disk::load_inodes`. -/
def load_inodes (s : DiskState) : Except Err (List INode) :=
  (List.range s.super_block.inode_count).foldlM
    (fun acc i =>
      if (s.inode_bitmap.bit_at i).getD false then
        match INode.from_bytes
            (s.read_from_address (s.inode_index_to_address i) INode.recordSize) with
        | some node => .ok (acc ++ [node])
        | none => .error .CorruptedINode
      else .ok acc) []

/-- `Disk::open_disk`: reconstitute a `Disk` from the backing store. The block
size and region addresses are taken from the on-disk superblock. -/
def open_disk (store : Store) : Except Err DiskState := do
  let block_size := DEFAULT_BLOCK_SIZE
  let first_block := storeRead store 0 block_size
  let super_block ←
    match SuperBlock.from_bytes first_block with
    | some b => pure b
    | none => .error .CorruptedSuperBlock
  let block_size := super_block.block_size
  let blocks_for_tag_map := roundedToAlignment super_block.tag_count block_size
  let blocks_for_inode_map := roundedToAlignment super_block.inode_count block_size
  let blocks_for_block_map := roundedToAlignment super_block.block_count block_size
  let tag_bitmaps_bytes := storeRead store block_size (blocks_for_tag_map * block_size)
  let inode_bitmaps_bytes := storeRead store (block_size + blocks_for_tag_map * block_size)
    (blocks_for_inode_map * block_size)
  let data_bitmaps_bytes := storeRead store
    (block_size + (blocks_for_tag_map + blocks_for_inode_map) * block_size)
    (blocks_for_block_map * block_size)
  let s : DiskState := ⟨store, super_block, BitMap.from_bytes tag_bitmaps_bytes,
    BitMap.from_bytes inode_bitmaps_bytes, BitMap.from_bytes data_bitmaps_bytes, block_size,
    blocks_for_tag_map, blocks_for_inode_map, blocks_for_block_map, [], []⟩
  let tags ← s.load_tags
  let s := { s with tags := tags }
  let inodes ← s.load_inodes
  .ok { s with inodes := inodes }

/-- Chain decoding for indirect inode chains: `decodesIndirectChain s next bs`
holds when following `next` pointers from `next` reads and deserialises
exactly the blocks `bs`, ending on a null pointer. -/
def decodesIndirectChain (s : DiskState) : Option Nat → List IndirectINode → Prop
  | none, [] => True
  | none, _ :: _ => False
  | some _, [] => False
  | some addr, b :: rest =>
    IndirectINode.from_bytes (s.read_from_address addr s.block_size) = some b ∧
      decodesIndirectChain s b.nextPointer rest

/-- Chain decoding for indirect tag-membership chains. -/
def decodesTagChain (s : DiskState) : Option Nat → List IndirectTagBlock → Prop
  | none, [] => True
  | none, _ :: _ => False
  | some _, [] => False
  | some addr, b :: rest =>
    IndirectTagBlock.from_bytes (s.read_from_address addr s.block_size) = some b ∧
      decodesTagChain s b.nextPointer rest

/-- Bytes delivered by reading one extent: `(stop + 1 − start) · block_size`. -/
def extentByteLen (s : DiskState) (e : Extent) : Nat :=
  (e.stop + 1 - e.start) * s.block_size

/-- Total bytes delivered by the inline extents consulted by
`read_file_bytes` (the first `num_extents` slots). -/
def inlineByteLen (s : DiskState) (inode : INode) : Nat :=
  ((List.range inode.num_extents).map
    (fun k => extentByteLen s (inode.blocks.getD k default))).sum

/-- Total bytes delivered by an indirect chain's extents. -/
def chainByteLen (s : DiskState) (chain : List IndirectINode) : Nat :=
  (chain.map (fun b => (b.extents.map (fun e => extentByteLen s e)).sum)).sum

end DiskState

/-! ## Concrete images and runs

`open_disk` takes the block size and the region geometry from the on-disk
superblock (spec §3 requires only a multiple of 64; the mkfs default is
4096). The runs below open a 64-byte-block image: the small block size keeps
kernel evaluation of every store read shallow while exercising exactly the
same code paths. -/

/-- Superblock of the crafted image: block size 64, 8 tag slots, 16 inode
slots, 26 data blocks; tag region at 256, inode region at 2304, data region
at 6400. -/
def imageSuper : SuperBlock :=
  SuperBlock.set_checksum ⟨SuperBlock.MAGIC, 64, 8, 16, 26, 256, 2304, 6400, 0, [0, 0, 0]⟩

/-- Root tag of the crafted image (tag slot 0). -/
def imageRoot : TagBlock :=
  TagBlock.new 0 DiskState.rootName (TagFlags.new true true) 0 0 0 (List.replicate 12 0)

/-- The crafted image: superblock at 0, tag bitmap at 64 (root slot set),
inode bitmap at 128 (all free), data bitmap at 192 (as given), root tag at
256. -/
def baseImage (blockBitmapBytes : List Nat) : Store :=
  storeWrite (storeWrite (storeWrite (storeWrite (fun _ => 0)
    imageSuper.to_bytes 0) [1] 64) blockBitmapBytes 192) imageRoot.to_bytes 256

/-- Image whose data bitmap marks blocks 1..24 allocated (blocks 0 and 25
free), producing a fragmented allocation. -/
def c1Image : Store := baseImage [254, 255, 255, 1]

/-- Image with an all-free data bitmap. -/
def c2Image : Store := baseImage []

def fileFlags : INodeFlags := INodeFlags.new true true true false

/-- Run for `delete_file` accounting: open the fragmented image, create a
65-byte file (which allocates the two extents `(0,0)` and `(25,25)`), then
delete it. -/
def c1Created : Except Err (INode × DiskState) := do
  let s ← DiskState.open_disk c1Image
  s.create_new_file [103] fileFlags (List.replicate 65 7) 0

/-- Evaluation of the `c1Created` run: `available_data_blocks` is 2 before the
create, the created inode has 2 extents, and after `delete_file` the count is
1 instead of 2 — the zeroed inline extent slots XOR-toggle bit 0 back on. -/
def c1Check : Bool :=
  (match DiskState.open_disk c1Image with
   | .ok s => s.available_data_blocks == 2
   | .error _ => false) &&
  (match c1Created with
   | .ok p =>
     (p.1.num_extents == 2) &&
     (match p.2.delete_file 10 0 with
      | .ok s2 => (s2.available_data_blocks == 1) && (s2.block_bitmap.bit_at 0 == some true)
      | .error _ => false)
   | .error _ => false)

/-- Run for the duplicate-membership scenario: open the free image, create a
tag (index 1), create 13 empty files (inodes 0..12), apply the tag to all 13
(the 13th lands in a fresh indirect tag block), remove inode 0 from the tag
(freeing a local slot), then apply the tag to inode 12 again. -/
def c2Run : Except Err DiskState := do
  let s ← DiskState.open_disk c2Image
  let r ← s.create_new_tag [116] (TagFlags.new true true) 0
  let s ← (List.range 13).foldlM (fun (s : DiskState) _ => do
    let r ← s.create_new_file [102] fileFlags [] 0
    pure r.2) r.2
  let s ← (List.range 13).foldlM (fun (s : DiskState) k => s.apply_tag 10 1 k) s
  let s ← s.remove_tag_from_inode 10 1 0
  s.apply_tag 10 1 12

/-- Evaluation of the `c2Run` run: the final `apply_tag` returns `ok` (not
`TagAlreadyAppliedToINode`) and afterwards inode 12 appears both among tag 1's
local members and in its indirect block: the tag holds the inode twice. -/
def c2Check : Bool :=
  match c2Run with
  | .ok s =>
    let t := s.tags.getD 1 default
    ((t.members.take t.number_of_pointers).contains 12) &&
    (match IndirectTagBlock.from_bytes (s.read_from_address t.indirect s.block_size) with
     | some b => b.members.contains 12
     | none => false)
  | .error _ => false

/-! ## Small hand-built states used as witnesses and counterexamples -/

/-- A minimal cached inode of logical size 0 with no extents. -/
def zeroSizeINode : INode :=
  INode.new 0 [102] 0 fileFlags 0 0 0 0 0 (List.replicate 5 Extent.zeroed)

/-- A state whose cache holds just `zeroSizeINode`, with the mkfs block size
4096. -/
def c3State : DiskState :=
  ⟨fun _ => 0, imageSuper, BitMap.new 8, BitMap.new 16, BitMap.new 26, 4096, 1, 1, 1,
    [imageRoot], [zeroSizeINode]⟩

/-- A one-byte file in block 0 at block size 64, for the read-length witness. -/
def oneByteINode : INode :=
  INode.new 0 [102] 1 fileFlags 0 0 0 0 1
    (Extent.mk 0 0 :: List.replicate 4 Extent.zeroed)

/-- Witness state for reads: block size 64, one cached one-byte file. -/
def readState : DiskState :=
  ⟨fun _ => 0, imageSuper, BitMap.new 8, BitMap.new 16, BitMap.new 26, 64, 1, 1, 1,
    [imageRoot], [oneByteINode]⟩

/-- A tag with all 12 local member slots full (inodes 1..12) and an indirect
chain at address 6400. -/
def fullTag : TagBlock :=
  TagBlock.new 1 [116] (TagFlags.new true true) 0 6400 12
    [1, 2, 3, 4, 5, 6, 7, 8, 9, 10, 11, 12]

/-- The indirect tag block of `fullTag`, holding inode 13. -/
def fullTagIndirect : IndirectTagBlock := IndirectTagBlock.new 1 [13] 0 64

/-- Witness state for the duplicate-rejection behaviour: `fullTag` with its
indirect block on disk at 6400 and inode 13 in the cache. -/
def fullTagState : DiskState :=
  ⟨storeWrite (fun _ => 0) fullTagIndirect.to_bytes 6400, imageSuper, BitMap.new 8,
    BitMap.new 16, BitMap.new 26, 64, 1, 1, 1, [imageRoot, fullTag],
    [INode.new 13 [102] 0 fileFlags 0 0 0 0 0 (List.replicate 5 Extent.zeroed)]⟩

/-- A superblock value whose checksum field is non-zero, exercising
`SuperBlock::set_checksum` on a dirty field. -/
def badSuper : SuperBlock := ⟨SuperBlock.MAGIC, 64, 8, 16, 26, 256, 2304, 6400, 7, [0, 0, 0]⟩

/-- A tag whose name contains the char U+0100 (code point 256), which the
codec truncates to a byte. -/
def wideNameTag : TagBlock :=
  TagBlock.new 0 [256] (TagFlags.new true false) 0 0 0 (List.replicate 12 0)

/-- Concrete witness blocks for the codec round-trip. -/
def wINode : INode :=
  INode.new 1 [110, 97, 109, 101] 246 fileFlags 11 12 13 0 1
    (Extent.mk 2 9 :: List.replicate 4 Extent.zeroed)

def wIndirectINode : IndirectINode := IndirectINode.new [Extent.mk 3 5, Extent.mk 9 9] 640 4096

/-- A 130-character name (all `a`), longer than both on-disk name fields. -/
def longName : List Nat := List.replicate 130 97

/-- Creation of a file with the 130-char `longName` on the small witness
state. -/
def c9Created : Except Err (INode × DiskState) :=
  DiskState.create_new_file readState longName fileFlags [] 0

/-- Creation of a tag with the 130-char `longName` on the small witness
state. -/
def c9TagCreated : Except Err (TagBlock × DiskState) :=
  DiskState.create_new_tag readState longName (TagFlags.new true true) 0

/-- Concrete read-only calls on `readState` for the frame witness. -/
def c10Read : Except Err (List Nat × DiskState) := DiskState.read_file_bytes readState 8 0 5

def c10ReadAll : Except Err (List Nat × DiskState) := DiskState.read_file readState 8 0

def c10Size : Except Err (FileSize × DiskState) := DiskState.file_size readState 8 0

def c10List : Except Err (List INode × DiskState) := DiskState.list_nodes_with_tag readState 8 0

def c10Lists : Except Err (List INode × DiskState) :=
  DiskState.list_nodes_with_tags readState 8 [0]

def c10Names : Except Err (List Nat × DiskState) := DiskState.tags_with_names readState []

/-- The indirect tag block of `fullTagState` as the codec decodes it back
from the store (it differs from `fullTagIndirect` only in the recomputed
helper field). -/
def c2ChainBlock : IndirectTagBlock :=
  (IndirectTagBlock.from_bytes (DiskState.read_from_address fullTagState 6400 64)).getD default

/-- Concrete read call for the read-length witness. -/
def c8Run : Except Err (List Nat × DiskState) := DiskState.read_file_bytes readState 8 0 5

/-- Well-formedness of an `INode` value as maintained by its constructor and
setters: field bounds of the Rust types, the fixed array lengths, and a valid
checksum. -/
def INode.WF (b : INode) : Prop :=
  b.name.length = 125 ∧ (∀ c ∈ b.name, c < 256) ∧ b.blocks.length = 5 ∧
    (∀ e ∈ b.blocks, e.start < 2 ^ 64 ∧ e.stop < 2 ^ 64) ∧
    b.index < 2 ^ 64 ∧ b.size < 2 ^ 64 ∧ b.access_time < 2 ^ 64 ∧ b.modified_time < 2 ^ 64 ∧
    b.creation_time < 2 ^ 64 ∧ b.indirect_block < 2 ^ 64 ∧ b.num_extents < 256 ∧
    b.checksum < 256 ∧ b.perform_checksum = true

/-- Well-formedness of a `TagBlock` value. -/
def TagBlock.WF (b : TagBlock) : Prop :=
  b.name.length = 132 ∧ (∀ c ∈ b.name, c < 256) ∧ b.members.length = 12 ∧
    (∀ m ∈ b.members, m < 2 ^ 64) ∧ b.index < 2 ^ 64 ∧ b.creation_time < 2 ^ 64 ∧
    b.indirect < 2 ^ 64 ∧ b.number_of_pointers < 2 ^ 16 ∧ b.checksum < 256 ∧
    b.perform_checksum = true

/-- Well-formedness of an `IndirectINode` value. -/
def IndirectINode.WF (b : IndirectINode) : Prop :=
  b.num_extents = b.pointers.length ∧ b.num_extents < 2 ^ 16 ∧
    (∀ e ∈ b.pointers, e.start < 2 ^ 64 ∧ e.stop < 2 ^ 64) ∧ b.next < 2 ^ 64 ∧
    b.reserved < 256 ∧ b.checksum < 256 ∧ b.perform_checksum = true

/-- Well-formedness of an `IndirectTagBlock` value. -/
def IndirectTagBlock.WF (b : IndirectTagBlock) : Prop :=
  b.number_of_members = b.members.length ∧ b.number_of_members < 2 ^ 16 ∧
    (∀ m ∈ b.members, m < 2 ^ 64) ∧ b.root < 2 ^ 64 ∧ b.next < 2 ^ 64 ∧
    b.reserved < 256 ∧ b.checksum < 256 ∧ b.perform_checksum = true

/-- Well-formedness of a `SuperBlock` value. -/
def SuperBlock.WF (b : SuperBlock) : Prop :=
  b.magic < 2 ^ 32 ∧ b.block_size < 2 ^ 64 ∧ b.tag_count < 2 ^ 64 ∧ b.inode_count < 2 ^ 64 ∧
    b.block_count < 2 ^ 64 ∧ b.tag_start_address < 2 ^ 64 ∧ b.inode_start_address < 2 ^ 64 ∧
    b.data_start_address < 2 ^ 64 ∧ b.checksum < 256 ∧ b.reserved = [0, 0, 0] ∧
    b.perform_checksum = true

end VoxFS

/-! # Theorems -/

set_option maxRecDepth 1000000

namespace VoxFS

theorem leWrite_length (k n : Nat) : (leWrite k n).length = k := by
  induction k generalizing n with
  | zero => rfl
  | succ k ih => simp [leWrite, ih]

theorem leWrite_lt (k n : Nat) : ∀ b ∈ leWrite k n, b < 256 := by
  induction k generalizing n with
  | zero => intro b hb; simp [leWrite] at hb
  | succ k ih =>
      intro b hb
      simp only [leWrite, List.mem_cons] at hb
      rcases hb with h | h
      · exact h ▸ Nat.mod_lt _ (by norm_num)
      · exact ih _ b h

theorem leRead_leWrite_append (k n : Nat) (rest : List Nat) :
    leRead k (leWrite k n ++ rest) = n % 256 ^ k := by
  induction k generalizing n with
  | zero => simp [leWrite, leRead, Nat.mod_one]
  | succ k ih =>
      have h256 : (256 : Nat) ^ (k + 1) = 256 * 256 ^ k := by ring
      simp only [leWrite, List.cons_append, leRead, List.append_eq, ih]
      rw [h256, Nat.mod_mul]

theorem leRead_leWrite (k n : Nat) (h : n < 256 ^ k) :
    leRead k (leWrite k n ++ []) = n := by
  rw [leRead_leWrite_append, Nat.mod_eq_of_lt h]


theorem byteSum_mod (l : List Nat) : byteSum l = l.sum % 256 := by
  have key : ∀ (l : List Nat) (a : Nat),
      l.foldl (fun s b => (s + b) % 256) (a % 256) = (a + l.sum) % 256 := by
    intro l
    induction l with
    | nil => intro a; simp
    | cons x xs ih =>
        intro a
        simp only [List.foldl_cons, List.sum_cons]
        rw [Nat.mod_add_mod, ih (a + x)]
        ring_nf
  have := key l 0
  simpa [byteSum] using this

theorem byteSum_lt (l : List Nat) : byteSum l < 256 := by
  rw [byteSum_mod]; exact Nat.mod_lt _ (by norm_num)

theorem byteSum_append (l₁ l₂ : List Nat) :
    byteSum (l₁ ++ l₂) = (byteSum l₁ + byteSum l₂) % 256 := by
  simp [byteSum_mod, Nat.add_mod]


theorem lenLT_iff (l : List α) (n : Nat) : lenLT l n = true ↔ l.length < n := by
  induction l generalizing n with
  | nil =>
      cases n with
      | zero => simp [lenLT]
      | succ n => simp [lenLT]
  | cons x t ih =>
      cases n with
      | zero => simp [lenLT]
      | succ n => simpa [lenLT, Nat.succ_lt_succ_iff] using ih n

theorem lenLT_eq_decide (l : List α) (n : Nat) : lenLT l n = decide (l.length < n) := by
  by_cases h : l.length < n
  · simp [h, (lenLT_iff l n).2 h]
  · simp only [decide_eq_false h]
    by_contra hc
    simp only [Bool.not_eq_false] at hc
    exact h ((lenLT_iff l n).1 hc)


theorem storeRead_length (st : Store) (location amount : Nat) :
    (storeRead st location amount).length = amount := by
  induction amount generalizing location with
  | zero => rfl
  | succ n ih => simp [storeRead, ih]



theorem byteSum_compensate (A B : List Nat) :
    byteSum (A ++ (256 - byteSum (A ++ 0 :: B)) % 256 :: B) = 0 := by
  have h0 : byteSum (A ++ 0 :: B) = (A.sum + B.sum) % 256 := by
    simp [byteSum_mod, List.sum_append]
  have h1 : byteSum (A ++ (256 - byteSum (A ++ 0 :: B)) % 256 :: B)
      = (A.sum + ((256 - (A.sum + B.sum) % 256) % 256 + B.sum)) % 256 := by
    rw [h0]; simp [byteSum_mod, List.sum_append]
  rw [h1]; omega

theorem inode_set_checksum_valid (b : INode) :
    (INode.set_checksum b).perform_checksum = true := by
  simp only [INode.set_checksum, INode.perform_checksum, INode.to_bytes, beq_iff_eq]
  have h := byteSum_compensate
    (leWrite 8 b.index ++ (b.name.map (fun c => c % 256) ++ (leWrite 8 b.size
      ++ ([b.flags.to_u8] ++ (leWrite 8 b.access_time ++ (leWrite 8 b.modified_time
      ++ leWrite 8 b.creation_time))))))
    (leWrite 8 b.indirect_block ++ ([b.num_extents]
      ++ (b.blocks.map (fun e => leWrite 8 e.start ++ leWrite 8 e.stop)).flatten))
  simpa [List.append_assoc, List.cons_append, List.nil_append, List.singleton_append] using h

theorem indirect_inode_set_checksum_valid (b : IndirectINode) :
    (IndirectINode.set_checksum b).perform_checksum = true := by
  simp only [IndirectINode.set_checksum, IndirectINode.perform_checksum, IndirectINode.to_bytes,
    beq_iff_eq]
  have h := byteSum_compensate ([] : List Nat)
    (b.reserved :: (leWrite 8 b.next ++ (leWrite 2 b.num_extents
      ++ (b.pointers.map (fun e => leWrite 8 e.start ++ leWrite 8 e.stop)).flatten)))
  simpa [List.append_assoc, List.cons_append, List.nil_append, List.singleton_append] using h

theorem tag_block_set_checksum_valid (b : TagBlock) :
    (TagBlock.set_checksum b).perform_checksum = true := by
  simp only [TagBlock.set_checksum, TagBlock.perform_checksum, TagBlock.to_bytes, beq_iff_eq]
  have h := byteSum_compensate (leWrite 8 b.index ++ b.name.map (fun c => c % 256))
    (b.flags.as_u8 :: (leWrite 8 b.creation_time ++ (leWrite 8 b.indirect
      ++ (leWrite 2 b.number_of_pointers ++ (b.members.map (fun m => leWrite 8 m)).flatten))))
  simpa [List.append_assoc, List.cons_append, List.nil_append, List.singleton_append] using h

theorem indirect_tag_set_checksum_valid (b : IndirectTagBlock) :
    (IndirectTagBlock.set_checksum b).perform_checksum = true := by
  simp only [IndirectTagBlock.set_checksum, IndirectTagBlock.perform_checksum,
    IndirectTagBlock.to_bytes, beq_iff_eq]
  have h := byteSum_compensate (leWrite 8 b.root)
    (b.reserved :: (leWrite 8 b.next ++ (leWrite 2 b.number_of_members
      ++ (b.members.map (fun m => leWrite 8 m)).flatten)))
  simpa [List.append_assoc, List.cons_append, List.nil_append, List.singleton_append] using h

theorem super_block_set_checksum_valid (b : SuperBlock) (h0 : b.checksum = 0) :
    (SuperBlock.set_checksum b).perform_checksum = true := by
  simp only [SuperBlock.set_checksum, SuperBlock.perform_checksum, SuperBlock.to_bytes,
    beq_iff_eq, h0]
  have h := byteSum_compensate
    (leWrite 4 b.magic ++ (leWrite 8 b.block_size ++ (leWrite 8 b.tag_count
      ++ (leWrite 8 b.inode_count ++ (leWrite 8 b.block_count
      ++ (leWrite 8 b.tag_start_address ++ (leWrite 8 b.inode_start_address
      ++ leWrite 8 b.data_start_address)))))))
    ([0, 0, 0] : List Nat)
  simpa [List.append_assoc, List.cons_append, List.nil_append, List.singleton_append] using h

/-- C7 counterexample: `SuperBlock::set_checksum` does not zero the checksum
field before recomputing (unlike the other four impls), so on a superblock
whose checksum field is already non-zero (here 7) the rewritten block fails
its own checksum. -/
theorem C7_counterexample : (SuperBlock.set_checksum badSuper).perform_checksum = false := by
  decide

/-- C7 (amended): for `INode`, `IndirectINode`, `TagBlock` and
`IndirectTagBlock`, `set_checksum` first zeroes the field, so after it the
8-bit wrapping sum of `to_bytes` is 0 for any prior field contents; for
`SuperBlock` the same holds exactly when the checksum field was 0 beforehand,
as it is at the impl's only call site (`SuperBlock::new`). -/
theorem C7_theorem :
    (∀ b : INode, (INode.set_checksum b).perform_checksum = true) ∧
    (∀ b : IndirectINode, (IndirectINode.set_checksum b).perform_checksum = true) ∧
    (∀ b : TagBlock, (TagBlock.set_checksum b).perform_checksum = true) ∧
    (∀ b : IndirectTagBlock, (IndirectTagBlock.set_checksum b).perform_checksum = true) ∧
    (∀ b : SuperBlock, b.checksum = 0 → (SuperBlock.set_checksum b).perform_checksum = true) :=
  ⟨inode_set_checksum_valid, indirect_inode_set_checksum_valid, tag_block_set_checksum_valid,
    indirect_tag_set_checksum_valid, super_block_set_checksum_valid⟩

/-- C7 witness: the theorem applied at a concrete zero-checksum superblock and
at a concrete inode. -/
theorem C7_witness :
    (SuperBlock.set_checksum
        ⟨SuperBlock.MAGIC, 64, 8, 16, 26, 256, 2304, 6400, 0, [0, 0, 0]⟩).perform_checksum
      = true
    ∧ (INode.set_checksum wINode).perform_checksum = true :=
  ⟨C7_theorem.2.2.2.2 _ rfl, C7_theorem.1 wINode⟩

/-- C4: `BitMap::set_bit(i, false)` clears via XOR, so on a freshly created
(all-clear) bitmap it *sets* bit 0: afterwards `bit_at(0)` is `Some(true)`,
not `Some(false)` as the claim states. -/
theorem C4_theorem :
    (BitMap.new 64).set_bit 0 false = (⟨[1]⟩, true)
    ∧ (((BitMap.new 64).set_bit 0 false).1).bit_at 0 = some true := by
  decide

/-- C5: `count_zeros_up_to` reads `bit_at(chunks + i)` instead of
`bit_at(chunks * 64 + i)` in its tail loop. On the two-word bitmap with word 0
all-ones and word 1 zero, `count_zeros_up_to(65)` returns `Some 0`, but
exactly one bit strictly below 65 (bit 64) is clear. -/
theorem C5_theorem :
    (BitMap.mk [2 ^ 64 - 1, 0]).count_zeros_up_to 65 = some 0
    ∧ (List.range 65).countP
        (fun i => (BitMap.mk [2 ^ 64 - 1, 0]).bit_at i == some false) = 1 := by
  decide

/-- C3 counterexample: `approximate_file_size` returns
`size + (block_size − size % block_size)`, so for a zero-size file with block
size 4096 it returns 4096, not 0 as the claim states for sizes that are
already multiples of the block size. -/
theorem C3_counterexample :
    DiskState.approximate_file_size c3State 0 = .ok 4096 ∧ zeroSizeINode.file_size = 0 :=
  ⟨rfl, rfl⟩

/-- C3 (amended): for an inode in the cache, `approximate_file_size` returns
`size + (block_size − size % block_size)`: the size rounded up to the next
multiple of `block_size` when it is not already one, and `size + block_size`
when it is (including block 0 for an empty file); an index not in the cache
yields `CouldNotFindINode`. -/
theorem C3_theorem (s : DiskState) (idx : Nat) :
    (∀ inode : INode, s.inodes.find? (fun i => i.index == idx) = some inode →
      0 < s.block_size →
      DiskState.approximate_file_size s idx
        = .ok (if inode.file_size % s.block_size = 0 then inode.file_size + s.block_size
            else s.block_size * (inode.file_size / s.block_size + 1)))
    ∧ (s.inodes.find? (fun i => i.index == idx) = none →
      DiskState.approximate_file_size s idx = .error .CouldNotFindINode) := by
  constructor
  · intro inode hfind hbs
    simp only [DiskState.approximate_file_size, hfind]
    congr 1
    have hdm := Nat.div_add_mod inode.file_size s.block_size
    have hlt := Nat.mod_lt inode.file_size hbs
    by_cases h : inode.file_size % s.block_size = 0
    · rw [if_pos h, h]
      omega
    · rw [if_neg h, Nat.mul_add, Nat.mul_one]
      generalize hq : inode.file_size / s.block_size = q at hdm ⊢
      generalize hP : s.block_size * q = P at hdm ⊢
      omega
  · intro hfind
    simp only [DiskState.approximate_file_size, hfind]

/-- C3 witness: the amended theorem applied to the concrete zero-size file of
`c3State` (block size 4096). -/
theorem C3_witness :
    DiskState.approximate_file_size c3State 0
      = .ok (if zeroSizeINode.file_size % c3State.block_size = 0
          then zeroSizeINode.file_size + c3State.block_size
          else c3State.block_size * (zeroSizeINode.file_size / c3State.block_size + 1)) :=
  (C3_theorem c3State 0).1 zeroSizeINode (by rfl) (by decide)

/-- C1: evaluation of the code at the failing input. Opening the fragmented
`c1Image` (data blocks 1..24 allocated) gives `available_data_blocks = 2`;
`create_new_file` with 65 bytes succeeds with the two extents `(0,0)` and
`(25,25)`; the subsequent `delete_file` brings `available_data_blocks` to 1,
not back to 2, and leaves data block 0 marked allocated: `delete_file` frees
all five inline `blocks()` slots — including the three zeroed `(0,0)` slots —
and `set_bit(_, false)` XOR-toggles, so bit 0 is toggled back on. -/
theorem C1_theorem : c1Check = true := by decide

/-- C2 counterexample: after `open` of the all-free image, create a tag,
create 13 files, apply the tag to all 13 (the 13th member goes to an indirect
tag block), remove inode 0 from the tag (freeing a local slot), and apply the
tag to inode 12 again: the final `apply_tag` returns `ok` — not
`TagAlreadyAppliedToINode` — and tag 1 then contains inode 12 both locally
and in its indirect block. -/
theorem C2_counterexample : c2Check = true := by decide

/-- `store_tag_first_free` never changes the name of the tag it stores. -/
theorem store_tag_first_free_name (s : DiskState) (tag : TagBlock) (r : TagBlock × DiskState)
    (h : s.store_tag_first_free tag = .ok r) : r.1.name = tag.name := by
  unfold DiskState.store_tag_first_free at h
  split at h
  · simp at h
  · dsimp only at h
    split at h
    · simp at h
    · simp only [Except.ok.injEq] at h
      rw [← h]
      rfl

/-- `read_file_bytes` returns its input state unchanged on success. -/
theorem read_file_bytes_frame (s : DiskState) (fuel i n : Nat) (res : List Nat)
    (s2 : DiskState) (h : s.read_file_bytes fuel i n = .ok (res, s2)) : s2 = s := by
  unfold DiskState.read_file_bytes at h
  simp only [Bind.bind, Except.bind, pure, Except.pure] at h
  iterate 6 (all_goals (try split at h))
  all_goals (try simp only [Except.ok.injEq, Prod.mk.injEq, reduceCtorEq] at h)
  all_goals (first
    | (obtain ⟨h1, h2⟩ := h; exact h2.symm)
    | simp at h)

/-- `file_size` returns its input state unchanged on success. -/
theorem file_size_frame (s : DiskState) (fuel i : Nat) (res : FileSize)
    (s2 : DiskState) (h : s.file_size fuel i = .ok (res, s2)) : s2 = s := by
  unfold DiskState.file_size at h
  simp only [Bind.bind, Except.bind, pure, Except.pure] at h
  iterate 6 (all_goals (try split at h))
  all_goals (try simp only [Except.ok.injEq, Prod.mk.injEq, reduceCtorEq] at h)
  all_goals (first
    | (obtain ⟨h1, h2⟩ := h; exact h2.symm)
    | simp at h)

/-- `list_nodes_with_tag` returns its input state unchanged on success. -/
theorem list_nodes_with_tag_frame (s : DiskState) (fuel t : Nat) (res : List INode)
    (s2 : DiskState) (h : s.list_nodes_with_tag fuel t = .ok (res, s2)) : s2 = s := by
  unfold DiskState.list_nodes_with_tag at h
  iterate 3 (all_goals (try split at h))
  all_goals (try simp only [Except.ok.injEq, Prod.mk.injEq, reduceCtorEq] at h)
  all_goals (first
    | (obtain ⟨h1, h2⟩ := h; exact h2.symm)
    | simp at h)

/-- `list_nodes_with_tags` returns its input state unchanged on success. -/
theorem list_nodes_with_tags_frame (s : DiskState) (fuel : Nat) (ts : List Nat)
    (res : List INode) (s2 : DiskState)
    (h : s.list_nodes_with_tags fuel ts = .ok (res, s2)) : s2 = s := by
  unfold DiskState.list_nodes_with_tags at h
  dsimp only at h
  iterate 3 (all_goals (try split at h))
  all_goals (try simp only [Except.ok.injEq, Prod.mk.injEq, reduceCtorEq] at h)
  all_goals (first
    | (obtain ⟨h1, h2⟩ := h; exact h2.symm)
    | simp at h)

/-- `tags_with_names` returns its input state unchanged on success. -/
theorem tags_with_names_frame (s : DiskState) (names : List (List Nat))
    (res : List Nat) (s2 : DiskState)
    (h : s.tags_with_names names = .ok (res, s2)) : s2 = s := by
  unfold DiskState.tags_with_names at h
  dsimp only at h
  iterate 3 (all_goals (try split at h))
  all_goals (try simp only [Except.ok.injEq, Prod.mk.injEq, reduceCtorEq] at h)
  all_goals (first
    | (obtain ⟨h1, h2⟩ := h; exact h2.symm)
    | simp at h)

/-- If some block of a decoded indirect tag chain contains the inode index,
`applyTagWalk` aborts with `TagAlreadyAppliedToINode` (given fuel covering
the chain). -/
theorem applyTagWalk_detects (s : DiskState) (idx : Nat) :
    ∀ (chain : List IndirectTagBlock) (fuel : Nat) (start fa : Option Nat)
      (pv : Option (IndirectTagBlock × Nat)),
      DiskState.decodesTagChain s start chain → chain.length ≤ fuel →
      (∃ b ∈ chain, b.contains_member idx = true) →
      s.applyTagWalk idx fuel start fa pv = .error .TagAlreadyAppliedToINode := by
  intro chain
  induction chain with
  | nil =>
    intro fuel start fa pv hdec hlen hmem
    rcases hmem with ⟨b, hb, _⟩
    cases hb
  | cons b rest ih =>
    intro fuel start fa pv hdec hlen hmem
    cases start with
    | none => cases hdec
    | some addr =>
      cases fuel with
      | zero => exact absurd hlen (by simp)
      | succ f =>
        obtain ⟨hfrom, hrest⟩ := hdec
        unfold DiskState.applyTagWalk
        simp only [hfrom]
        by_cases hc : b.contains_member idx = true
        · rw [if_pos hc]
        · rw [if_neg hc]
          rcases hmem with ⟨c, hcmem, hcc⟩
          rcases List.mem_cons.1 hcmem with rfl | hcr
          · exact absurd hcc hc
          · exact ih f b.nextPointer _ _ hrest (by simpa using Nat.le_of_succ_le_succ hlen)
              ⟨c, hcr, hcc⟩

theorem drop_shift (P R : List Nat) (n : Nat) (h : P.length = n) :
    ∀ m, (P ++ R).drop (n + m) = R.drop m := by
  subst h
  induction P with
  | nil => intro m; simp
  | cons a t ih =>
    intro m
    have hx : (a :: t).length + m = (t.length + m) + 1 := by
      simp [List.length_cons]; omega
    rw [List.cons_append, hx, List.drop_succ_cons]
    exact ih m

theorem peel (bytes T R P : List Nat) (a n : Nat) (hP : P.length = n)
    (hT : T = P ++ R) (h : ∀ m, bytes.drop (a + m) = T.drop m) :
    ∀ m, bytes.drop ((a + n) + m) = R.drop m := by
  intro m
  have hh := h (n + m)
  rw [hT, drop_shift P R n hP m] at hh
  rw [← hh]
  congr 1
  omega

theorem peel_cons (bytes T R : List Nat) (x : Nat) (a : Nat)
    (hT : T = x :: R) (h : ∀ m, bytes.drop (a + m) = T.drop m) :
    ∀ m, bytes.drop ((a + 1) + m) = R.drop m := by
  intro m
  have hh := h (1 + m)
  rw [hT] at hh
  have hx : (1 : Nat) + m = m + 1 := by omega
  rw [hx, List.drop_succ_cons] at hh
  rw [← hh]
  congr 1
  omega

theorem drop_pref (P R : List Nat) (n : Nat) (h : P.length = n) : (P ++ R).drop n = R := by
  have hh := drop_shift P R n h 0
  simpa using hh

theorem getD_drop (l : List Nat) (k : Nat) : l.getD k 0 = (l.drop k).getD 0 0 := by
  induction k generalizing l with
  | zero => simp
  | succ k ih =>
    cases l with
    | nil => simp
    | cons a t => simpa using ih t

theorem take_pref (P R : List Nat) (n : Nat) (h : P.length = n) : (P ++ R).take n = P := by
  subst h
  induction P with
  | nil => simp
  | cons a t ih => simpa using ih

theorem map_mod_id (l : List Nat) (h : ∀ c ∈ l, c < 256) :
    l.map (fun c => c % 256) = l := by
  induction l with
  | nil => rfl
  | cons a t ih =>
    rw [List.map_cons, Nat.mod_eq_of_lt (h a (by simp)),
      ih (fun c hc => h c (by simp [hc]))]

theorem lt_pow64 {n : Nat} (h : n < 2 ^ 64) : n < 256 ^ 8 := by
  have hx : (256 : Nat) ^ 8 = 2 ^ 64 := by norm_num
  omega

theorem lt_pow32 {n : Nat} (h : n < 2 ^ 32) : n < 256 ^ 4 := by
  have hx : (256 : Nat) ^ 4 = 2 ^ 32 := by norm_num
  omega

theorem lt_pow16 {n : Nat} (h : n < 2 ^ 16) : n < 256 ^ 2 := by
  have hx : (256 : Nat) ^ 2 = 2 ^ 16 := by norm_num
  omega

theorem extent_flatten_length (bl : List Extent) :
    ((bl.map (fun e => leWrite 8 e.start ++ leWrite 8 e.stop)).flatten).length
      = 16 * bl.length := by
  rw [List.length_flatten, List.map_map]
  have hc : bl.map (List.length ∘ fun e => leWrite 8 e.start ++ leWrite 8 e.stop)
      = bl.map (fun _ => 16) := by
    apply List.map_congr_left
    intro e _
    simp [Function.comp, leWrite_length]
  rw [hc, List.map_const', List.sum_replicate, smul_eq_mul]
  omega

theorem members_flatten_length (ms : List Nat) :
    ((ms.map (fun m => leWrite 8 m)).flatten).length = 8 * ms.length := by
  rw [List.length_flatten, List.map_map]
  have hc : ms.map (List.length ∘ fun m => leWrite 8 m) = ms.map (fun _ => 8) := by
    apply List.map_congr_left
    intro m _
    simp [Function.comp, leWrite_length]
  rw [hc, List.map_const', List.sum_replicate, smul_eq_mul]
  omega

theorem inode_flags_roundtrip (f : INodeFlags) : INodeFlags.from_u8 f.to_u8 = f := by
  rcases f with ⟨v, r, w, e⟩
  cases v <;> cases r <;> cases w <;> cases e <;> decide

theorem tag_flags_roundtrip (f : TagFlags) : TagFlags.from_u8 f.as_u8 = f := by
  rcases f with ⟨r, w⟩
  cases r <;> cases w <;> decide

/-- Decoding 16-byte extent records laid out at stride 16 from offset `a`
recovers the encoded extent list. -/
theorem decodeExtents (bytes : List Nat) :
    ∀ (bl : List Extent) (a c : Nat),
      (∀ e ∈ bl, e.start < 2 ^ 64 ∧ e.stop < 2 ^ 64) →
      c = a + 8 →
      (∀ m, bytes.drop (a + m)
        = ((bl.map (fun e => leWrite 8 e.start ++ leWrite 8 e.stop)).flatten).drop m) →
      (List.range bl.length).map (fun i =>
        Extent.mk (leRead 8 (bytes.drop (a + 16 * i)))
          (leRead 8 (bytes.drop (c + 16 * i)))) = bl := by
  intro bl
  induction bl with
  | nil => intro a c hx hc hdrop; simp
  | cons e t ih =>
    intro a c hx hc hdrop
    rw [List.length_cons, List.range_succ_eq_map, List.map_cons, List.map_map]
    have hflat : ((e :: t).map (fun e => leWrite 8 e.start ++ leWrite 8 e.stop)).flatten
        = leWrite 8 e.start ++ (leWrite 8 e.stop
          ++ ((t.map (fun e => leWrite 8 e.start ++ leWrite 8 e.stop)).flatten)) := by
      simp [List.append_assoc]
    have hda : bytes.drop a
        = leWrite 8 e.start ++ (leWrite 8 e.stop
          ++ ((t.map (fun e => leWrite 8 e.start ++ leWrite 8 e.stop)).flatten)) := by
      have hh := hdrop 0
      simpa [hflat] using hh
    have hdc : bytes.drop c
        = leWrite 8 e.stop ++ ((t.map (fun e => leWrite 8 e.start ++ leWrite 8 e.stop)).flatten) := by
      have hh := hdrop 8
      rw [hflat, drop_pref (leWrite 8 e.start) _ 8 (leWrite_length 8 e.start)] at hh
      rw [hc]
      exact hh
    have hhead : Extent.mk (leRead 8 (bytes.drop (a + 16 * 0)))
        (leRead 8 (bytes.drop (c + 16 * 0))) = e := by
      have h0a : a + 16 * 0 = a := by omega
      have h0c : c + 16 * 0 = c := by omega
      rw [h0a, h0c, hda, hdc, leRead_leWrite_append, leRead_leWrite_append,
        Nat.mod_eq_of_lt (lt_pow64 (hx e (by simp)).1),
        Nat.mod_eq_of_lt (lt_pow64 (hx e (by simp)).2)]
    have hdrop' : ∀ m, bytes.drop ((a + 16) + m)
        = ((t.map (fun e => leWrite 8 e.start ++ leWrite 8 e.stop)).flatten).drop m := by
      intro m
      have hh := hdrop (16 + m)
      rw [hflat, ← List.append_assoc,
        drop_shift (leWrite 8 e.start ++ leWrite 8 e.stop) _ 16
          (by simp [leWrite_length]) m] at hh
      rw [← hh]
      congr 1
      omega
    have htail : (List.range t.length).map
        ((fun i => Extent.mk (leRead 8 (bytes.drop (a + 16 * i)))
          (leRead 8 (bytes.drop (c + 16 * i)))) ∘ Nat.succ) = t := by
      have hcong : (List.range t.length).map
          ((fun i => Extent.mk (leRead 8 (bytes.drop (a + 16 * i)))
            (leRead 8 (bytes.drop (c + 16 * i)))) ∘ Nat.succ)
          = (List.range t.length).map (fun i =>
            Extent.mk (leRead 8 (bytes.drop ((a + 16) + 16 * i)))
              (leRead 8 (bytes.drop ((c + 16) + 16 * i)))) := by
        apply List.map_congr_left
        intro i _
        have hia : a + 16 * Nat.succ i = (a + 16) + 16 * i := by omega
        have hic : c + 16 * Nat.succ i = (c + 16) + 16 * i := by omega
        simp only [Function.comp, hia, hic]
      rw [hcong]
      exact ih (a + 16) (c + 16) (fun x hxm => hx x (by simp [hxm])) (by omega) hdrop'
    rw [hhead, htail]

/-- Decoding 8-byte little-endian records laid out at stride 8 from offset `a`
recovers the encoded value list. -/
theorem decodeMembers (bytes : List Nat) :
    ∀ (ms : List Nat) (a : Nat),
      (∀ m ∈ ms, m < 2 ^ 64) →
      (∀ m, bytes.drop (a + m) = ((ms.map (fun v => leWrite 8 v)).flatten).drop m) →
      (List.range ms.length).map (fun i => leRead 8 (bytes.drop (a + 8 * i))) = ms := by
  intro ms
  induction ms with
  | nil => intro a hx hdrop; simp
  | cons v t ih =>
    intro a hx hdrop
    rw [List.length_cons, List.range_succ_eq_map, List.map_cons, List.map_map]
    have hflat : ((v :: t).map (fun v => leWrite 8 v)).flatten
        = leWrite 8 v ++ ((t.map (fun v => leWrite 8 v)).flatten) := by
      simp
    have hda : bytes.drop a
        = leWrite 8 v ++ ((t.map (fun v => leWrite 8 v)).flatten) := by
      have hh := hdrop 0
      simpa [hflat] using hh
    have hhead : leRead 8 (bytes.drop (a + 8 * 0)) = v := by
      have h0a : a + 8 * 0 = a := by omega
      rw [h0a, hda, leRead_leWrite_append, Nat.mod_eq_of_lt (lt_pow64 (hx v (by simp)))]
    have hdrop' : ∀ m, bytes.drop ((a + 8) + m)
        = ((t.map (fun v => leWrite 8 v)).flatten).drop m := by
      intro m
      have hh := hdrop (8 + m)
      rw [hflat, drop_shift (leWrite 8 v) _ 8 (leWrite_length 8 v) m] at hh
      rw [← hh]
      congr 1
      omega
    have htail : (List.range t.length).map
        ((fun i => leRead 8 (bytes.drop (a + 8 * i))) ∘ Nat.succ) = t := by
      have hcong : (List.range t.length).map
          ((fun i => leRead 8 (bytes.drop (a + 8 * i))) ∘ Nat.succ)
          = (List.range t.length).map (fun i => leRead 8 (bytes.drop ((a + 8) + 8 * i))) := by
        apply List.map_congr_left
        intro i _
        have hia : a + 8 * Nat.succ i = (a + 8) + 8 * i := by omega
        simp only [Function.comp, hia]
      rw [hcong]
      exact ih (a + 8) (fun x hxm => hx x (by simp [hxm])) hdrop'
    rw [hhead, htail]

/-- Reading one extent delivers exactly `(stop + 1 - start) * block_size`
bytes. -/
theorem read_extent_length (s : DiskState) (e : Extent) :
    (s.read_extent e).length = s.extentByteLen e := by
  unfold DiskState.read_extent DiskState.read_between_range DiskState.extentByteLen
  rw [List.length_flatten, List.map_map]
  have hmap : (List.range' e.start (e.stop + 1 - e.start)).map
      (List.length ∘ fun i => s.read_from_address (s.data_index_to_address i) s.block_size)
      = (List.range' e.start (e.stop + 1 - e.start)).map (fun _ => s.block_size) := by
    apply List.map_congr_left
    intro a _
    simp [Function.comp, DiskState.read_from_address, storeRead_length]
  rw [hmap, List.map_const', List.sum_replicate, List.length_range', smul_eq_mul]

/-- Invariant of the extent-accumulation fold of `read_file_bytes`: the
`amount_read` counter tracks the result length, and the length accumulates
extent byte lengths capped at `nb`. -/
theorem readFoldLen (s : DiskState) (nb : Nat) {γ : Type} (g : γ → Extent) :
    ∀ (es : List γ) (acc : List Nat × Nat),
      acc.2 = acc.1.length → acc.1.length ≤ nb →
      ((es.foldl (fun a x => s.readStep nb a (g x)) acc).2
          = (es.foldl (fun a x => s.readStep nb a (g x)) acc).1.length)
      ∧ ((es.foldl (fun a x => s.readStep nb a (g x)) acc).1.length
          = min nb (acc.1.length + (es.map (fun x => s.extentByteLen (g x))).sum)) := by
  intro es
  induction es with
  | nil =>
    intro acc h1 h2
    refine ⟨h1, ?_⟩
    simp only [List.foldl_nil, List.map_nil, List.sum_nil, Nat.add_zero]
    omega
  | cons x rest ih =>
    intro acc h1 h2
    have hstep1 : (s.readStep nb acc (g x)).2 = (s.readStep nb acc (g x)).1.length := by
      unfold DiskState.readStep
      dsimp only
      split
      · rename_i hgt
        simp only [List.length_append, List.length_take]
        omega
      · simp only [List.length_append]
        omega
    have hstep2 : (s.readStep nb acc (g x)).1.length
        = min nb (acc.1.length + s.extentByteLen (g x)) := by
      rw [← read_extent_length s (g x)]
      unfold DiskState.readStep
      dsimp only
      split
      · rename_i hgt
        simp only [List.length_append, List.length_take]
        omega
      · rename_i hle
        simp only [List.length_append]
        omega
    have hstep3 : (s.readStep nb acc (g x)).1.length ≤ nb := by
      rw [hstep2]; omega
    obtain ⟨ih1, ih2⟩ := ih (s.readStep nb acc (g x)) hstep1 hstep3
    rw [List.foldl_cons]
    refine ⟨ih1, ?_⟩
    rw [ih2, hstep2, List.map_cons, List.sum_cons]
    omega

/-- Length of the indirect pass of `read_file_bytes` along a decoded chain:
when the chain's extents (on top of the bytes already read) cover `nb`, the
pass succeeds and delivers exactly `nb` bytes. -/
theorem readIndirectLen (s : DiskState) (nb : Nat) :
    ∀ (chain : List IndirectINode) (fuel : Nat) (next : Option Nat) (res : List Nat),
      DiskState.decodesIndirectChain s next chain → chain.length ≤ fuel →
      res.length ≤ nb → nb ≤ res.length + s.chainByteLen chain →
      ∃ res2, s.readIndirectPass nb fuel next res res.length = .ok res2
        ∧ res2.length = nb := by
  intro chain
  induction chain with
  | nil =>
    intro fuel next res hdec hlen hle hcov
    cases next with
    | some a => cases hdec
    | none =>
      have hz : s.chainByteLen [] = 0 := by simp [DiskState.chainByteLen]
      refine ⟨res, ?_, by omega⟩
      cases fuel with
      | zero =>
        unfold DiskState.readIndirectPass
        rw [if_neg (by omega)]
      | succ f =>
        unfold DiskState.readIndirectPass
        rw [if_neg (by omega)]
  | cons b rest ih =>
    intro fuel next res hdec hlen hle hcov
    cases next with
    | none => cases hdec
    | some addr =>
      obtain ⟨hb, hrest⟩ := hdec
      cases fuel with
      | zero => exact absurd hlen (by simp)
      | succ f =>
        by_cases hlt : res.length < nb
        · have hcb : s.chainByteLen (b :: rest)
              = (b.extents.map (fun e => s.extentByteLen e)).sum + s.chainByteLen rest := by
            simp [DiskState.chainByteLen]
          have hacc := readFoldLen s nb (fun e : Extent => e) b.extents (res, res.length)
            rfl hle
          have hacc1 : (b.extents.foldl (fun a e => s.readStep nb a e) (res, res.length)).2
              = (b.extents.foldl (fun a e => s.readStep nb a e) (res, res.length)).1.length :=
            hacc.1
          have hacc2 : (b.extents.foldl
                (fun a e => s.readStep nb a e) (res, res.length)).1.length
              = min nb (res.length + (b.extents.map (fun e => s.extentByteLen e)).sum) :=
            hacc.2
          obtain ⟨res2, hrec, hl2⟩ := ih f b.nextPointer
            (b.extents.foldl (fun a e => s.readStep nb a e) (res, res.length)).1
            hrest (by simp only [List.length_cons] at hlen; omega) (by omega) (by omega)
          refine ⟨res2, ?_, hl2⟩
          unfold DiskState.readIndirectPass
          rw [if_pos hlt]
          simp only [hb]
          try dsimp only
          rw [hacc1]
          exact hrec
        · refine ⟨res, ?_, by omega⟩
          unfold DiskState.readIndirectPass
          rw [if_neg hlt]

/-- Codec round-trip for `INode` under the constructor invariants. -/
theorem inode_from_to (b : INode) (h : b.WF) : INode.from_bytes b.to_bytes = some b := by
  obtain ⟨hn, hnc, hbl, hbe, hix, hsz, hac, hmo, hcr, hib, hne, hck, hcs⟩ := h
  have hnm : b.name.map (fun c => c % 256) = b.name := map_mod_id b.name hnc
  have hnl : (b.name.map (fun c => c % 256)).length = 125 := by
    rw [List.length_map, hn]
  have hbytes : b.to_bytes
      = leWrite 8 b.index ++ (b.name.map (fun c => c % 256) ++ (leWrite 8 b.size
        ++ (b.flags.to_u8 :: (leWrite 8 b.access_time ++ (leWrite 8 b.modified_time
        ++ (leWrite 8 b.creation_time ++ (b.checksum :: (leWrite 8 b.indirect_block
        ++ (b.num_extents :: (b.blocks.map
              (fun e => leWrite 8 e.start ++ leWrite 8 e.stop)).flatten))))))))) := by
    simp [INode.to_bytes, List.append_assoc]
  have hlen : b.to_bytes.length = 256 := by
    rw [hbytes]
    simp only [List.length_append, List.length_cons, leWrite_length,
      extent_flatten_length, hnl, hbl]
  have h8 : ∀ m, b.to_bytes.drop (8 + m)
      = ((b.name.map (fun c => c % 256) ++ (leWrite 8 b.size
        ++ (b.flags.to_u8 :: (leWrite 8 b.access_time ++ (leWrite 8 b.modified_time
        ++ (leWrite 8 b.creation_time ++ (b.checksum :: (leWrite 8 b.indirect_block
        ++ (b.num_extents :: (b.blocks.map
              (fun e => leWrite 8 e.start ++ leWrite 8 e.stop)).flatten))))))))) : List Nat).drop m := by
    intro m
    rw [hbytes]
    exact drop_shift (leWrite 8 b.index) _ 8 (leWrite_length 8 b.index) m
  have h133 : ∀ m, b.to_bytes.drop (133 + m)
      = ((leWrite 8 b.size
        ++ (b.flags.to_u8 :: (leWrite 8 b.access_time ++ (leWrite 8 b.modified_time
        ++ (leWrite 8 b.creation_time ++ (b.checksum :: (leWrite 8 b.indirect_block
        ++ (b.num_extents :: (b.blocks.map
              (fun e => leWrite 8 e.start ++ leWrite 8 e.stop)).flatten)))))))) : List Nat).drop m :=
    peel b.to_bytes _ _ (b.name.map (fun c => c % 256)) 8 125 hnl rfl h8
  have h141 : ∀ m, b.to_bytes.drop (141 + m)
      = ((b.flags.to_u8 :: (leWrite 8 b.access_time ++ (leWrite 8 b.modified_time
        ++ (leWrite 8 b.creation_time ++ (b.checksum :: (leWrite 8 b.indirect_block
        ++ (b.num_extents :: (b.blocks.map
              (fun e => leWrite 8 e.start ++ leWrite 8 e.stop)).flatten))))))) : List Nat).drop m :=
    peel b.to_bytes _ _ (leWrite 8 b.size) 133 8 (leWrite_length 8 b.size) rfl h133
  have h142 : ∀ m, b.to_bytes.drop (142 + m)
      = ((leWrite 8 b.access_time ++ (leWrite 8 b.modified_time
        ++ (leWrite 8 b.creation_time ++ (b.checksum :: (leWrite 8 b.indirect_block
        ++ (b.num_extents :: (b.blocks.map
              (fun e => leWrite 8 e.start ++ leWrite 8 e.stop)).flatten)))))) : List Nat).drop m :=
    peel_cons b.to_bytes _ _ b.flags.to_u8 141 rfl h141
  have h150 : ∀ m, b.to_bytes.drop (150 + m)
      = ((leWrite 8 b.modified_time
        ++ (leWrite 8 b.creation_time ++ (b.checksum :: (leWrite 8 b.indirect_block
        ++ (b.num_extents :: (b.blocks.map
              (fun e => leWrite 8 e.start ++ leWrite 8 e.stop)).flatten))))) : List Nat).drop m :=
    peel b.to_bytes _ _ (leWrite 8 b.access_time) 142 8 (leWrite_length 8 b.access_time) rfl h142
  have h158 : ∀ m, b.to_bytes.drop (158 + m)
      = ((leWrite 8 b.creation_time ++ (b.checksum :: (leWrite 8 b.indirect_block
        ++ (b.num_extents :: (b.blocks.map
              (fun e => leWrite 8 e.start ++ leWrite 8 e.stop)).flatten)))) : List Nat).drop m :=
    peel b.to_bytes _ _ (leWrite 8 b.modified_time) 150 8 (leWrite_length 8 b.modified_time)
      rfl h150
  have h166 : ∀ m, b.to_bytes.drop (166 + m)
      = ((b.checksum :: (leWrite 8 b.indirect_block
        ++ (b.num_extents :: (b.blocks.map
              (fun e => leWrite 8 e.start ++ leWrite 8 e.stop)).flatten))) : List Nat).drop m :=
    peel b.to_bytes _ _ (leWrite 8 b.creation_time) 158 8 (leWrite_length 8 b.creation_time)
      rfl h158
  have h167 : ∀ m, b.to_bytes.drop (167 + m)
      = ((leWrite 8 b.indirect_block
        ++ (b.num_extents :: (b.blocks.map
              (fun e => leWrite 8 e.start ++ leWrite 8 e.stop)).flatten)) : List Nat).drop m :=
    peel_cons b.to_bytes _ _ b.checksum 166 rfl h166
  have h175 : ∀ m, b.to_bytes.drop (175 + m)
      = ((b.num_extents :: (b.blocks.map
          (fun e => leWrite 8 e.start ++ leWrite 8 e.stop)).flatten) : List Nat).drop m :=
    peel b.to_bytes _ _ (leWrite 8 b.indirect_block) 167 8 (leWrite_length 8 b.indirect_block)
      rfl h167
  have h176 : ∀ m, b.to_bytes.drop (176 + m)
      = ((b.blocks.map (fun e => leWrite 8 e.start ++ leWrite 8 e.stop)).flatten).drop m :=
    peel_cons b.to_bytes _ _ b.num_extents 175 rfl h175
  have eix : leRead 8 b.to_bytes = b.index := by
    rw [hbytes, leRead_leWrite_append, Nat.mod_eq_of_lt (lt_pow64 hix)]
  have enm : (b.to_bytes.drop 8).take 125 = b.name := by
    have hh := h8 0
    rw [Nat.add_zero, List.drop_zero] at hh
    rw [hh, take_pref _ _ 125 hnl, hnm]
  have esz : leRead 8 (b.to_bytes.drop 133) = b.size := by
    have hh := h133 0
    rw [Nat.add_zero, List.drop_zero] at hh
    rw [hh, leRead_leWrite_append, Nat.mod_eq_of_lt (lt_pow64 hsz)]
  have efl : INodeFlags.from_u8 (b.to_bytes.getD 141 0) = b.flags := by
    have hh := h141 0
    rw [Nat.add_zero, List.drop_zero] at hh
    rw [getD_drop, hh, List.getD_cons_zero]
    exact inode_flags_roundtrip b.flags
  have eac : leRead 8 (b.to_bytes.drop 142) = b.access_time := by
    have hh := h142 0
    rw [Nat.add_zero, List.drop_zero] at hh
    rw [hh, leRead_leWrite_append, Nat.mod_eq_of_lt (lt_pow64 hac)]
  have emo : leRead 8 (b.to_bytes.drop 150) = b.modified_time := by
    have hh := h150 0
    rw [Nat.add_zero, List.drop_zero] at hh
    rw [hh, leRead_leWrite_append, Nat.mod_eq_of_lt (lt_pow64 hmo)]
  have ecr : leRead 8 (b.to_bytes.drop 158) = b.creation_time := by
    have hh := h158 0
    rw [Nat.add_zero, List.drop_zero] at hh
    rw [hh, leRead_leWrite_append, Nat.mod_eq_of_lt (lt_pow64 hcr)]
  have eck : b.to_bytes.getD 166 0 = b.checksum := by
    have hh := h166 0
    rw [Nat.add_zero, List.drop_zero] at hh
    rw [getD_drop, hh, List.getD_cons_zero]
  have eib : leRead 8 (b.to_bytes.drop 167) = b.indirect_block := by
    have hh := h167 0
    rw [Nat.add_zero, List.drop_zero] at hh
    rw [hh, leRead_leWrite_append, Nat.mod_eq_of_lt (lt_pow64 hib)]
  have ene : b.to_bytes.getD 175 0 = b.num_extents := by
    have hh := h175 0
    rw [Nat.add_zero, List.drop_zero] at hh
    rw [getD_drop, hh, List.getD_cons_zero]
  have ebl : (List.range 5).map (fun i =>
      Extent.mk (leRead 8 (b.to_bytes.drop (176 + 16 * i)))
        (leRead 8 (b.to_bytes.drop (184 + 16 * i)))) = b.blocks := by
    rw [← hbl]
    exact decodeExtents b.to_bytes b.blocks 176 184 hbe (by omega) h176
  have hfalse : lenLT b.to_bytes 256 = false := by
    rw [lenLT_eq_decide, hlen]
    simp
  unfold INode.from_bytes
  rw [hfalse]
  simp only [Bool.false_eq_true, if_false]
  rw [eix, enm, esz, efl, eac, emo, ecr, eck, eib, ene, ebl]
  rw [show (⟨b.index, b.name, b.size, b.flags, b.access_time, b.modified_time,
    b.creation_time, b.checksum, b.indirect_block, b.num_extents, b.blocks⟩ : INode) = b
    from rfl]
  rw [hcs]
  rfl

/-- Codec round-trip for `TagBlock` under the constructor invariants. -/
theorem tag_block_from_to (b : TagBlock) (h : b.WF) :
    TagBlock.from_bytes b.to_bytes = some b := by
  obtain ⟨hn, hnc, hml, hme, hix, hcr, hind, hnp, hck, hcs⟩ := h
  have hnm : b.name.map (fun c => c % 256) = b.name := map_mod_id b.name hnc
  have hnl : (b.name.map (fun c => c % 256)).length = 132 := by
    rw [List.length_map, hn]
  have hbytes : b.to_bytes
      = leWrite 8 b.index ++ (b.name.map (fun c => c % 256) ++ (b.checksum
        :: (b.flags.as_u8 :: (leWrite 8 b.creation_time ++ (leWrite 8 b.indirect
        ++ (leWrite 2 b.number_of_pointers
        ++ (b.members.map (fun m => leWrite 8 m)).flatten)))))) := by
    simp [TagBlock.to_bytes, List.append_assoc]
  have hlen : b.to_bytes.length = 256 := by
    rw [hbytes]
    simp only [List.length_append, List.length_cons, leWrite_length,
      members_flatten_length, hnl, hml]
  have h8 : ∀ m, b.to_bytes.drop (8 + m)
      = ((b.name.map (fun c => c % 256) ++ (b.checksum
        :: (b.flags.as_u8 :: (leWrite 8 b.creation_time ++ (leWrite 8 b.indirect
        ++ (leWrite 2 b.number_of_pointers
        ++ (b.members.map (fun m => leWrite 8 m)).flatten)))))) : List Nat).drop m := by
    intro m
    rw [hbytes]
    exact drop_shift (leWrite 8 b.index) _ 8 (leWrite_length 8 b.index) m
  have h140 : ∀ m, b.to_bytes.drop (140 + m)
      = ((b.checksum :: (b.flags.as_u8 :: (leWrite 8 b.creation_time
        ++ (leWrite 8 b.indirect ++ (leWrite 2 b.number_of_pointers
        ++ (b.members.map (fun m => leWrite 8 m)).flatten))))) : List Nat).drop m :=
    peel b.to_bytes _ _ (b.name.map (fun c => c % 256)) 8 132 hnl rfl h8
  have h141 : ∀ m, b.to_bytes.drop (141 + m)
      = ((b.flags.as_u8 :: (leWrite 8 b.creation_time
        ++ (leWrite 8 b.indirect ++ (leWrite 2 b.number_of_pointers
        ++ (b.members.map (fun m => leWrite 8 m)).flatten)))) : List Nat).drop m :=
    peel_cons b.to_bytes _ _ b.checksum 140 rfl h140
  have h142 : ∀ m, b.to_bytes.drop (142 + m)
      = ((leWrite 8 b.creation_time ++ (leWrite 8 b.indirect
        ++ (leWrite 2 b.number_of_pointers
        ++ (b.members.map (fun m => leWrite 8 m)).flatten))) : List Nat).drop m :=
    peel_cons b.to_bytes _ _ b.flags.as_u8 141 rfl h141
  have h150 : ∀ m, b.to_bytes.drop (150 + m)
      = ((leWrite 8 b.indirect ++ (leWrite 2 b.number_of_pointers
        ++ (b.members.map (fun m => leWrite 8 m)).flatten)) : List Nat).drop m :=
    peel b.to_bytes _ _ (leWrite 8 b.creation_time) 142 8 (leWrite_length 8 b.creation_time)
      rfl h142
  have h158 : ∀ m, b.to_bytes.drop (158 + m)
      = ((leWrite 2 b.number_of_pointers
        ++ (b.members.map (fun m => leWrite 8 m)).flatten) : List Nat).drop m :=
    peel b.to_bytes _ _ (leWrite 8 b.indirect) 150 8 (leWrite_length 8 b.indirect) rfl h150
  have h160 : ∀ m, b.to_bytes.drop (160 + m)
      = ((b.members.map (fun m => leWrite 8 m)).flatten).drop m :=
    peel b.to_bytes _ _ (leWrite 2 b.number_of_pointers) 158 2
      (leWrite_length 2 b.number_of_pointers) rfl h158
  have eix : leRead 8 b.to_bytes = b.index := by
    rw [hbytes, leRead_leWrite_append, Nat.mod_eq_of_lt (lt_pow64 hix)]
  have enm : (b.to_bytes.drop 8).take 132 = b.name := by
    have hh := h8 0
    rw [Nat.add_zero, List.drop_zero] at hh
    rw [hh, take_pref _ _ 132 hnl, hnm]
  have eck : b.to_bytes.getD 140 0 = b.checksum := by
    have hh := h140 0
    rw [Nat.add_zero, List.drop_zero] at hh
    rw [getD_drop, hh, List.getD_cons_zero]
  have efl : TagFlags.from_u8 (b.to_bytes.getD 141 0) = b.flags := by
    have hh := h141 0
    rw [Nat.add_zero, List.drop_zero] at hh
    rw [getD_drop, hh, List.getD_cons_zero]
    exact tag_flags_roundtrip b.flags
  have ecr : leRead 8 (b.to_bytes.drop 142) = b.creation_time := by
    have hh := h142 0
    rw [Nat.add_zero, List.drop_zero] at hh
    rw [hh, leRead_leWrite_append, Nat.mod_eq_of_lt (lt_pow64 hcr)]
  have eind : leRead 8 (b.to_bytes.drop 150) = b.indirect := by
    have hh := h150 0
    rw [Nat.add_zero, List.drop_zero] at hh
    rw [hh, leRead_leWrite_append, Nat.mod_eq_of_lt (lt_pow64 hind)]
  have enp : leRead 2 (b.to_bytes.drop 158) = b.number_of_pointers := by
    have hh := h158 0
    rw [Nat.add_zero, List.drop_zero] at hh
    rw [hh, leRead_leWrite_append, Nat.mod_eq_of_lt (lt_pow16 hnp)]
  have emb : (List.range 12).map (fun i => leRead 8 (b.to_bytes.drop (160 + 8 * i)))
      = b.members := by
    rw [← hml]
    exact decodeMembers b.to_bytes b.members 160 hme h160
  have hfalse : lenLT b.to_bytes 256 = false := by
    rw [lenLT_eq_decide, hlen]
    simp
  unfold TagBlock.from_bytes
  rw [hfalse]
  simp only [Bool.false_eq_true, if_false]
  rw [eix, enm, eck, efl, ecr, eind, enp, emb]
  rw [show (⟨b.index, b.name, b.checksum, b.flags, b.creation_time, b.indirect,
    b.number_of_pointers, b.members⟩ : TagBlock) = b from rfl]
  rw [hcs]
  rfl

/-- Codec round-trip for `IndirectINode`: the deserialised value differs only
in the non-serialised `maximum_extents` helper field. -/
theorem indirect_inode_from_to (b : IndirectINode) (h : b.WF) :
    IndirectINode.from_bytes b.to_bytes = some { b with maximum_extents := 0 } := by
  obtain ⟨hpe, hnel, hbe, hnext, hrv, hck, hcs⟩ := h
  have hbytes : b.to_bytes
      = b.checksum :: (b.reserved :: (leWrite 8 b.next ++ (leWrite 2 b.num_extents
        ++ (b.pointers.map (fun e => leWrite 8 e.start ++ leWrite 8 e.stop)).flatten))) := by
    simp [IndirectINode.to_bytes, List.append_assoc]
  have hlen : b.to_bytes.length = 12 + 16 * b.pointers.length := by
    rw [hbytes]
    simp only [List.length_append, List.length_cons, leWrite_length, extent_flatten_length]
    omega
  have h0 : ∀ m, b.to_bytes.drop (0 + m)
      = ((b.checksum :: (b.reserved :: (leWrite 8 b.next ++ (leWrite 2 b.num_extents
        ++ (b.pointers.map
            (fun e => leWrite 8 e.start ++ leWrite 8 e.stop)).flatten)))) : List Nat).drop m := by
    intro m
    rw [hbytes, Nat.zero_add]
  have h1 : ∀ m, b.to_bytes.drop (1 + m)
      = ((b.reserved :: (leWrite 8 b.next ++ (leWrite 2 b.num_extents
        ++ (b.pointers.map
            (fun e => leWrite 8 e.start ++ leWrite 8 e.stop)).flatten))) : List Nat).drop m :=
    peel_cons b.to_bytes _ _ b.checksum 0 rfl h0
  have h2 : ∀ m, b.to_bytes.drop (2 + m)
      = ((leWrite 8 b.next ++ (leWrite 2 b.num_extents
        ++ (b.pointers.map
            (fun e => leWrite 8 e.start ++ leWrite 8 e.stop)).flatten)) : List Nat).drop m :=
    peel_cons b.to_bytes _ _ b.reserved 1 rfl h1
  have h10 : ∀ m, b.to_bytes.drop (10 + m)
      = ((leWrite 2 b.num_extents
        ++ (b.pointers.map
            (fun e => leWrite 8 e.start ++ leWrite 8 e.stop)).flatten) : List Nat).drop m :=
    peel b.to_bytes _ _ (leWrite 8 b.next) 2 8 (leWrite_length 8 b.next) rfl h2
  have h12 : ∀ m, b.to_bytes.drop (12 + m)
      = ((b.pointers.map (fun e => leWrite 8 e.start ++ leWrite 8 e.stop)).flatten).drop m :=
    peel b.to_bytes _ _ (leWrite 2 b.num_extents) 10 2 (leWrite_length 2 b.num_extents)
      rfl h10
  have eck : b.to_bytes.getD 0 0 = b.checksum := by
    rw [hbytes, List.getD_cons_zero]
  have erv : b.to_bytes.getD 1 0 = b.reserved := by
    have hh := h1 0
    rw [Nat.add_zero, List.drop_zero] at hh
    rw [getD_drop, hh, List.getD_cons_zero]
  have enext : leRead 8 (b.to_bytes.drop 2) = b.next := by
    have hh := h2 0
    rw [Nat.add_zero, List.drop_zero] at hh
    rw [hh, leRead_leWrite_append, Nat.mod_eq_of_lt (lt_pow64 hnext)]
  have ene : leRead 2 (b.to_bytes.drop 10) = b.num_extents := by
    have hh := h10 0
    rw [Nat.add_zero, List.drop_zero] at hh
    rw [hh, leRead_leWrite_append, Nat.mod_eq_of_lt (lt_pow16 hnel)]
  have ebl : (List.range b.num_extents).map (fun i =>
      Extent.mk (leRead 8 (b.to_bytes.drop (12 + 16 * i)))
        (leRead 8 (b.to_bytes.drop (20 + 16 * i)))) = b.pointers := by
    rw [hpe]
    exact decodeExtents b.to_bytes b.pointers 12 20 hbe (by omega) h12
  have hfalse : lenLT b.to_bytes IndirectINode.nonExpandableSize = false := by
    rw [lenLT_eq_decide, hlen]
    simp only [decide_eq_false_iff_not, IndirectINode.nonExpandableSize]
    omega
  have hcs2 : ({ b with maximum_extents := 0 } : IndirectINode).perform_checksum = true := hcs
  unfold IndirectINode.from_bytes
  rw [hfalse]
  simp only [Bool.false_eq_true, if_false]
  rw [eck, erv, enext, ene, ebl]
  rw [show (⟨b.checksum, b.reserved, b.next, b.num_extents, b.pointers, 0⟩ : IndirectINode)
    = { b with maximum_extents := 0 } from rfl]
  rw [hcs2]
  rfl

/-- Codec round-trip for `IndirectTagBlock`: the deserialised value differs
only in the non-serialised `maximum_members` helper field. -/
theorem indirect_tag_from_to (b : IndirectTagBlock) (h : b.WF) :
    IndirectTagBlock.from_bytes b.to_bytes = some { b with maximum_members := 0 } := by
  obtain ⟨hmm, hnml, hme, hroot, hnext, hrv, hck, hcs⟩ := h
  have hbytes : b.to_bytes
      = leWrite 8 b.root ++ (b.checksum :: (b.reserved :: (leWrite 8 b.next
        ++ (leWrite 2 b.number_of_members
        ++ (b.members.map (fun m => leWrite 8 m)).flatten)))) := by
    simp [IndirectTagBlock.to_bytes, List.append_assoc]
  have hlen : b.to_bytes.length = 20 + 8 * b.members.length := by
    rw [hbytes]
    simp only [List.length_append, List.length_cons, leWrite_length, members_flatten_length]
    omega
  have h8 : ∀ m, b.to_bytes.drop (8 + m)
      = ((b.checksum :: (b.reserved :: (leWrite 8 b.next
        ++ (leWrite 2 b.number_of_members
        ++ (b.members.map (fun m => leWrite 8 m)).flatten)))) : List Nat).drop m := by
    intro m
    rw [hbytes]
    exact drop_shift (leWrite 8 b.root) _ 8 (leWrite_length 8 b.root) m
  have h9 : ∀ m, b.to_bytes.drop (9 + m)
      = ((b.reserved :: (leWrite 8 b.next ++ (leWrite 2 b.number_of_members
        ++ (b.members.map (fun m => leWrite 8 m)).flatten))) : List Nat).drop m :=
    peel_cons b.to_bytes _ _ b.checksum 8 rfl h8
  have h10 : ∀ m, b.to_bytes.drop (10 + m)
      = ((leWrite 8 b.next ++ (leWrite 2 b.number_of_members
        ++ (b.members.map (fun m => leWrite 8 m)).flatten)) : List Nat).drop m :=
    peel_cons b.to_bytes _ _ b.reserved 9 rfl h9
  have h18 : ∀ m, b.to_bytes.drop (18 + m)
      = ((leWrite 2 b.number_of_members
        ++ (b.members.map (fun m => leWrite 8 m)).flatten) : List Nat).drop m :=
    peel b.to_bytes _ _ (leWrite 8 b.next) 10 8 (leWrite_length 8 b.next) rfl h10
  have h20 : ∀ m, b.to_bytes.drop (20 + m)
      = ((b.members.map (fun m => leWrite 8 m)).flatten).drop m :=
    peel b.to_bytes _ _ (leWrite 2 b.number_of_members) 18 2
      (leWrite_length 2 b.number_of_members) rfl h18
  have eroot : leRead 8 b.to_bytes = b.root := by
    rw [hbytes, leRead_leWrite_append, Nat.mod_eq_of_lt (lt_pow64 hroot)]
  have eck : b.to_bytes.getD 8 0 = b.checksum := by
    have hh := h8 0
    rw [Nat.add_zero, List.drop_zero] at hh
    rw [getD_drop, hh, List.getD_cons_zero]
  have erv : b.to_bytes.getD 9 0 = b.reserved := by
    have hh := h9 0
    rw [Nat.add_zero, List.drop_zero] at hh
    rw [getD_drop, hh, List.getD_cons_zero]
  have enext : leRead 8 (b.to_bytes.drop 10) = b.next := by
    have hh := h10 0
    rw [Nat.add_zero, List.drop_zero] at hh
    rw [hh, leRead_leWrite_append, Nat.mod_eq_of_lt (lt_pow64 hnext)]
  have enom : leRead 2 (b.to_bytes.drop 18) = b.number_of_members := by
    have hh := h18 0
    rw [Nat.add_zero, List.drop_zero] at hh
    rw [hh, leRead_leWrite_append, Nat.mod_eq_of_lt (lt_pow16 hnml)]
  have emb : (List.range b.number_of_members).map
      (fun i => leRead 8 (b.to_bytes.drop (20 + 8 * i))) = b.members := by
    rw [hmm]
    exact decodeMembers b.to_bytes b.members 20 hme h20
  have hfalse : lenLT b.to_bytes IndirectTagBlock.nonExpandableSize = false := by
    rw [lenLT_eq_decide, hlen]
    simp only [decide_eq_false_iff_not, IndirectTagBlock.nonExpandableSize]
    omega
  have hcs2 : ({ b with maximum_members := 0 } : IndirectTagBlock).perform_checksum
      = true := hcs
  unfold IndirectTagBlock.from_bytes
  rw [hfalse]
  simp only [Bool.false_eq_true, if_false]
  rw [eroot, eck, erv, enext, enom, emb]
  rw [show (⟨b.root, b.checksum, b.reserved, b.next, b.number_of_members, b.members, 0⟩
    : IndirectTagBlock) = { b with maximum_members := 0 } from rfl]
  rw [hcs2]
  rfl

/-- Codec round-trip for `SuperBlock` under its invariants. -/
theorem super_block_from_to (b : SuperBlock) (h : b.WF) :
    SuperBlock.from_bytes b.to_bytes = some b := by
  obtain ⟨hmg, hbs, htc, hic, hbc, htsa, hisa, hdsa, hck, hrsv, hcs⟩ := h
  have hbytes : b.to_bytes
      = leWrite 4 b.magic ++ (leWrite 8 b.block_size ++ (leWrite 8 b.tag_count
        ++ (leWrite 8 b.inode_count ++ (leWrite 8 b.block_count
        ++ (leWrite 8 b.tag_start_address ++ (leWrite 8 b.inode_start_address
        ++ (leWrite 8 b.data_start_address ++ (b.checksum :: [0, 0, 0])))))))) := by
    simp [SuperBlock.to_bytes, List.append_assoc]
  have hlen : b.to_bytes.length = 64 := by
    rw [hbytes]
    simp only [List.length_append, List.length_cons, leWrite_length, List.length_nil]
  have h4 : ∀ m, b.to_bytes.drop (4 + m)
      = ((leWrite 8 b.block_size ++ (leWrite 8 b.tag_count
        ++ (leWrite 8 b.inode_count ++ (leWrite 8 b.block_count
        ++ (leWrite 8 b.tag_start_address ++ (leWrite 8 b.inode_start_address
        ++ (leWrite 8 b.data_start_address
        ++ (b.checksum :: [0, 0, 0])))))))) : List Nat).drop m := by
    intro m
    rw [hbytes]
    exact drop_shift (leWrite 4 b.magic) _ 4 (leWrite_length 4 b.magic) m
  have h12 : ∀ m, b.to_bytes.drop (12 + m)
      = ((leWrite 8 b.tag_count ++ (leWrite 8 b.inode_count ++ (leWrite 8 b.block_count
        ++ (leWrite 8 b.tag_start_address ++ (leWrite 8 b.inode_start_address
        ++ (leWrite 8 b.data_start_address
        ++ (b.checksum :: [0, 0, 0]))))))) : List Nat).drop m :=
    peel b.to_bytes _ _ (leWrite 8 b.block_size) 4 8 (leWrite_length 8 b.block_size) rfl h4
  have h20 : ∀ m, b.to_bytes.drop (20 + m)
      = ((leWrite 8 b.inode_count ++ (leWrite 8 b.block_count
        ++ (leWrite 8 b.tag_start_address ++ (leWrite 8 b.inode_start_address
        ++ (leWrite 8 b.data_start_address
        ++ (b.checksum :: [0, 0, 0])))))) : List Nat).drop m :=
    peel b.to_bytes _ _ (leWrite 8 b.tag_count) 12 8 (leWrite_length 8 b.tag_count) rfl h12
  have h28 : ∀ m, b.to_bytes.drop (28 + m)
      = ((leWrite 8 b.block_count ++ (leWrite 8 b.tag_start_address
        ++ (leWrite 8 b.inode_start_address ++ (leWrite 8 b.data_start_address
        ++ (b.checksum :: [0, 0, 0]))))) : List Nat).drop m :=
    peel b.to_bytes _ _ (leWrite 8 b.inode_count) 20 8 (leWrite_length 8 b.inode_count)
      rfl h20
  have h36 : ∀ m, b.to_bytes.drop (36 + m)
      = ((leWrite 8 b.tag_start_address ++ (leWrite 8 b.inode_start_address
        ++ (leWrite 8 b.data_start_address
        ++ (b.checksum :: [0, 0, 0])))) : List Nat).drop m :=
    peel b.to_bytes _ _ (leWrite 8 b.block_count) 28 8 (leWrite_length 8 b.block_count)
      rfl h28
  have h44 : ∀ m, b.to_bytes.drop (44 + m)
      = ((leWrite 8 b.inode_start_address ++ (leWrite 8 b.data_start_address
        ++ (b.checksum :: [0, 0, 0]))) : List Nat).drop m :=
    peel b.to_bytes _ _ (leWrite 8 b.tag_start_address) 36 8
      (leWrite_length 8 b.tag_start_address) rfl h36
  have h52 : ∀ m, b.to_bytes.drop (52 + m)
      = ((leWrite 8 b.data_start_address ++ (b.checksum :: [0, 0, 0])) : List Nat).drop m :=
    peel b.to_bytes _ _ (leWrite 8 b.inode_start_address) 44 8
      (leWrite_length 8 b.inode_start_address) rfl h44
  have h60 : ∀ m, b.to_bytes.drop (60 + m) = ((b.checksum :: [0, 0, 0]) : List Nat).drop m :=
    peel b.to_bytes _ _ (leWrite 8 b.data_start_address) 52 8
      (leWrite_length 8 b.data_start_address) rfl h52
  have emg : leRead 4 b.to_bytes = b.magic := by
    rw [hbytes, leRead_leWrite_append, Nat.mod_eq_of_lt (lt_pow32 hmg)]
  have ebs : leRead 8 (b.to_bytes.drop 4) = b.block_size := by
    have hh := h4 0
    rw [Nat.add_zero, List.drop_zero] at hh
    rw [hh, leRead_leWrite_append, Nat.mod_eq_of_lt (lt_pow64 hbs)]
  have etc : leRead 8 (b.to_bytes.drop 12) = b.tag_count := by
    have hh := h12 0
    rw [Nat.add_zero, List.drop_zero] at hh
    rw [hh, leRead_leWrite_append, Nat.mod_eq_of_lt (lt_pow64 htc)]
  have eic : leRead 8 (b.to_bytes.drop 20) = b.inode_count := by
    have hh := h20 0
    rw [Nat.add_zero, List.drop_zero] at hh
    rw [hh, leRead_leWrite_append, Nat.mod_eq_of_lt (lt_pow64 hic)]
  have ebc : leRead 8 (b.to_bytes.drop 28) = b.block_count := by
    have hh := h28 0
    rw [Nat.add_zero, List.drop_zero] at hh
    rw [hh, leRead_leWrite_append, Nat.mod_eq_of_lt (lt_pow64 hbc)]
  have etsa : leRead 8 (b.to_bytes.drop 36) = b.tag_start_address := by
    have hh := h36 0
    rw [Nat.add_zero, List.drop_zero] at hh
    rw [hh, leRead_leWrite_append, Nat.mod_eq_of_lt (lt_pow64 htsa)]
  have eisa : leRead 8 (b.to_bytes.drop 44) = b.inode_start_address := by
    have hh := h44 0
    rw [Nat.add_zero, List.drop_zero] at hh
    rw [hh, leRead_leWrite_append, Nat.mod_eq_of_lt (lt_pow64 hisa)]
  have edsa : leRead 8 (b.to_bytes.drop 52) = b.data_start_address := by
    have hh := h52 0
    rw [Nat.add_zero, List.drop_zero] at hh
    rw [hh, leRead_leWrite_append, Nat.mod_eq_of_lt (lt_pow64 hdsa)]
  have eck : b.to_bytes.getD 60 0 = b.checksum := by
    have hh := h60 0
    rw [Nat.add_zero, List.drop_zero] at hh
    rw [getD_drop, hh, List.getD_cons_zero]
  have hfalse : lenLT b.to_bytes 40 = false := by
    rw [lenLT_eq_decide, hlen]
    simp
  unfold SuperBlock.from_bytes
  rw [hfalse]
  simp only [Bool.false_eq_true, if_false]
  rw [emg, ebs, etc, eic, ebc, etsa, eisa, edsa, eck, ← hrsv]
  rw [show (⟨b.magic, b.block_size, b.tag_count, b.inode_count, b.block_count,
    b.tag_start_address, b.inode_start_address, b.data_start_address, b.checksum,
    b.reserved⟩ : SuperBlock) = b from rfl]
  rw [hcs]
  rfl

/-- C9: `create_new_file` and `create_new_tag` reject a name only for a
forbidden character: validation accepts any name free of them, including the
empty string and names longer than the on-disk field; a successfully created
file stores the first 125 chars (NUL-padded) and a tag the first 132. -/
theorem C9_theorem :
    (∀ (name : List Nat) (err : Err),
      DiskState.validate_name name err = .ok () ↔ ∀ c ∈ name, ¬ c ∈ FORBIDDEN_CHARACTERS)
    ∧ (∀ (s : DiskState) (name : List Nat) (flags : INodeFlags) (contents : List Nat)
        (now : Nat) (inode : INode) (s2 : DiskState),
        s.create_new_file name flags contents now = .ok (inode, s2) →
        inode.name = name.take 125 ++ List.replicate (125 - (name.take 125).length) 0)
    ∧ (∀ (s : DiskState) (name : List Nat) (flags : TagFlags) (now : Nat) (tag : TagBlock)
        (s2 : DiskState),
        s.create_new_tag name flags now = .ok (tag, s2) →
        tag.name = name.take 132 ++ List.replicate (132 - (name.take 132).length) 0) := by
  refine ⟨?_, ?_, ?_⟩
  · intro name err
    unfold DiskState.validate_name
    by_cases hc : name.any (fun ch => FORBIDDEN_CHARACTERS.contains ch)
    · simp only [hc, if_true, if_pos]
      constructor
      · intro h; cases h
      · intro hforb
        exfalso
        obtain ⟨c, hcm, hcf⟩ := List.any_eq_true.1 hc
        exact hforb c hcm (by simpa using hcf)
    · simp only [hc, if_false, Bool.false_eq_true]
      constructor
      · intro _ c hcm hcf
        exact hc (List.any_eq_true.2 ⟨c, hcm, by simpa using hcf⟩)
      · intro _; trivial
  · intro s name flags contents now inode s2 h
    unfold DiskState.create_new_file at h
    cases hv : DiskState.validate_name name .InvalidFileName with
    | error e => rw [hv] at h; simp [Bind.bind, Except.bind] at h
    | ok u =>
      rw [hv] at h
      simp only [Bind.bind, Except.bind, pure, Except.pure] at h
      iterate 14 (all_goals (try split at h))
      all_goals (try simp only [Except.ok.injEq, Prod.mk.injEq, reduceCtorEq] at h)
      all_goals (obtain ⟨h1, _⟩ := h; rw [← h1])
      all_goals rfl
  · intro s name flags now tag s2 h
    unfold DiskState.create_new_tag at h
    cases hv : DiskState.validate_name name .InvalidTagName with
    | error e => rw [hv] at h; simp [Bind.bind, Except.bind] at h
    | ok u =>
      rw [hv] at h
      simp only [Bind.bind, Except.bind, pure, Except.pure] at h
      split at h
      · simp at h
      · rename_i v heq
        obtain ⟨t, st⟩ := v
        simp only [Except.ok.injEq, Prod.mk.injEq] at h
        obtain ⟨h1, _⟩ := h
        rw [← h1, store_tag_first_free_name s _ (t, st) heq]
        rfl

/-- C9 witness: the 130-char name `longName` and the empty name pass
validation; the concrete creations on `readState` store the truncated names. -/
theorem C9_witness :
    DiskState.validate_name longName .InvalidFileName = .ok ()
    ∧ DiskState.validate_name [] .InvalidFileName = .ok ()
    ∧ (match c9Created with
       | .ok p => p.1.name = longName.take 125 ++ List.replicate (125 - (longName.take 125).length) 0
       | .error _ => False)
    ∧ (match c9TagCreated with
       | .ok p => p.1.name = longName.take 132 ++ List.replicate (132 - (longName.take 132).length) 0
       | .error _ => False) := by
  refine ⟨(C9_theorem.1 longName .InvalidFileName).2 (by decide),
    (C9_theorem.1 [] .InvalidFileName).2 (by decide), ?_, ?_⟩
  · have hok : c9Created.isOk = true := by decide
    cases hx : c9Created with
    | ok p => exact C9_theorem.2.1 readState longName fileFlags [] 0 p.1 p.2 (by change c9Created = _; rw [hx])
    | error e => rw [hx] at hok; simp [Except.isOk, Except.toBool] at hok
  · have hok : c9TagCreated.isOk = true := by decide
    cases hx : c9TagCreated with
    | ok p => exact C9_theorem.2.2 readState longName (TagFlags.new true true) 0 p.1 p.2 (by change c9TagCreated = _; rw [hx])
    | error e => rw [hx] at hok; simp [Except.isOk, Except.toBool] at hok

/-- C10: the read-only operations leave the whole disk state — backing store,
superblock, bitmaps and both caches (hence also every inode access time) —
unchanged: each stateful one returns exactly its input state on success, and
`list_tags` / `list_inodes` merely return the caches. -/
theorem C10_theorem :
    (∀ (s : DiskState) (fuel i n : Nat) (res : List Nat) (s2 : DiskState),
      s.read_file_bytes fuel i n = .ok (res, s2) → s2 = s)
    ∧ (∀ (s : DiskState) (fuel i : Nat) (res : List Nat) (s2 : DiskState),
      s.read_file fuel i = .ok (res, s2) → s2 = s)
    ∧ (∀ (s : DiskState) (fuel i : Nat) (res : FileSize) (s2 : DiskState),
      s.file_size fuel i = .ok (res, s2) → s2 = s)
    ∧ (∀ (s : DiskState) (fuel t : Nat) (res : List INode) (s2 : DiskState),
      s.list_nodes_with_tag fuel t = .ok (res, s2) → s2 = s)
    ∧ (∀ (s : DiskState) (fuel : Nat) (ts : List Nat) (res : List INode) (s2 : DiskState),
      s.list_nodes_with_tags fuel ts = .ok (res, s2) → s2 = s)
    ∧ (∀ (s : DiskState) (names : List (List Nat)) (res : List Nat) (s2 : DiskState),
      s.tags_with_names names = .ok (res, s2) → s2 = s)
    ∧ (∀ s : DiskState, s.list_tags = s.tags)
    ∧ (∀ s : DiskState, s.list_inodes = s.inodes) :=
  ⟨read_file_bytes_frame,
    fun s fuel i res s2 h => read_file_bytes_frame s fuel i 0 res s2 h,
    file_size_frame, list_nodes_with_tag_frame, list_nodes_with_tags_frame,
    tags_with_names_frame, fun _ => rfl, fun _ => rfl⟩

/-- C10 witness: the six concrete read-only calls on `readState` succeed and
return `readState` itself. -/
theorem C10_witness :
    (match c10Read with | .ok p => p.2 = readState | .error _ => False)
    ∧ (match c10ReadAll with | .ok p => p.2 = readState | .error _ => False)
    ∧ (match c10Size with | .ok p => p.2 = readState | .error _ => False)
    ∧ (match c10List with | .ok p => p.2 = readState | .error _ => False)
    ∧ (match c10Lists with | .ok p => p.2 = readState | .error _ => False)
    ∧ (match c10Names with | .ok p => p.2 = readState | .error _ => False) := by
  refine ⟨?_, ?_, ?_, ?_, ?_, ?_⟩
  · have hok : c10Read.isOk = true := by decide
    cases hx : c10Read with
    | ok p => exact C10_theorem.1 readState 8 0 5 p.1 p.2 (by change c10Read = _; rw [hx])
    | error e => rw [hx] at hok; simp [Except.isOk, Except.toBool] at hok
  · have hok : c10ReadAll.isOk = true := by decide
    cases hx : c10ReadAll with
    | ok p =>
      exact C10_theorem.2.1 readState 8 0 p.1 p.2 (by change c10ReadAll = _; rw [hx])
    | error e => rw [hx] at hok; simp [Except.isOk, Except.toBool] at hok
  · have hok : c10Size.isOk = true := by decide
    cases hx : c10Size with
    | ok p =>
      exact C10_theorem.2.2.1 readState 8 0 p.1 p.2 (by change c10Size = _; rw [hx])
    | error e => rw [hx] at hok; simp [Except.isOk, Except.toBool] at hok
  · have hok : c10List.isOk = true := by decide
    cases hx : c10List with
    | ok p =>
      exact C10_theorem.2.2.2.1 readState 8 0 p.1 p.2 (by change c10List = _; rw [hx])
    | error e => rw [hx] at hok; simp [Except.isOk, Except.toBool] at hok
  · have hok : c10Lists.isOk = true := by decide
    cases hx : c10Lists with
    | ok p =>
      exact C10_theorem.2.2.2.2.1 readState 8 [0] p.1 p.2 (by change c10Lists = _; rw [hx])
    | error e => rw [hx] at hok; simp [Except.isOk, Except.toBool] at hok
  · have hok : c10Names.isOk = true := by decide
    cases hx : c10Names with
    | ok p =>
      exact C10_theorem.2.2.2.2.2.1 readState [] p.1 p.2 (by change c10Names = _; rw [hx])
    | error e => rw [hx] at hok; simp [Except.isOk, Except.toBool] at hok

/-- C2 (amended): `apply_tag` rejects with `TagAlreadyAppliedToINode` whenever
the inode index appears among the tag's local members, and — when the 12
local slots are full — whenever it appears in any block of the tag's decoded
indirect chain (the walk covers the whole chain). -/
theorem C2_apply_tag_duplicate_detection (s : DiskState)
    (fuel tag_index inode_index li ti : Nat) (chain : List IndirectTagBlock)
    (hloc : s.locate_inode inode_index = .ok li)
    (htag : s.tags.findIdx? (fun t => t.index == tag_index) = some ti) :
    ((s.tags.getD ti default).contains_member (s.inodes.getD li default).index = true →
      s.apply_tag fuel tag_index inode_index = .error .TagAlreadyAppliedToINode)
    ∧ ((s.tags.getD ti default).number_of_pointers ≥ TagBlock.maximumLocalMembers →
      DiskState.decodesTagChain s (s.tags.getD ti default).indirect_pointer chain →
      chain.length ≤ fuel →
      (∃ b ∈ chain, b.contains_member (s.inodes.getD li default).index = true) →
      s.apply_tag fuel tag_index inode_index = .error .TagAlreadyAppliedToINode) := by
  constructor
  · intro hmem
    unfold DiskState.apply_tag
    rw [hloc, htag]
    simp only [Bind.bind, Except.bind, pure, Except.pure]
    split
    · first | rfl | rw [if_pos hmem]
    · first | rfl | rw [if_pos hmem]

  · intro hfull hdec hlen hmem
    unfold DiskState.apply_tag
    rw [hloc, htag]
    simp only [Bind.bind, Except.bind, pure, Except.pure]
    rw [if_pos hfull]
    by_cases hloc2 : (s.tags.getD ti default).contains_member
        (s.inodes.getD li default).index = true
    · rw [if_pos hloc2]
    · rw [if_neg hloc2,
        applyTagWalk_detects s (s.inodes.getD li default).index chain fuel
          (s.tags.getD ti default).indirect_pointer none none hdec hlen hmem]

/-- C2 amended-theorem witness: on `fullTagState` (12 full local slots, inode
13 only in the indirect block at 6400), applying tag 1 to inode 13 is
rejected. -/
theorem C2_apply_tag_duplicate_detection_witness :
    DiskState.apply_tag fullTagState 8 1 13 = .error .TagAlreadyAppliedToINode :=
  (C2_apply_tag_duplicate_detection fullTagState 8 1 13 0 1 [c2ChainBlock]
    rfl rfl).2 (by decide) ⟨rfl, trivial⟩ (by decide)
    ⟨c2ChainBlock, by simp, by decide⟩

/-- C8: for a cached inode whose inline extents plus decoded indirect chain
cover its logical size, `read_file_bytes(i, n)` succeeds and returns exactly
`min n size` bytes when `n > 0` and exactly `size` bytes when `n = 0`. -/
theorem C8_theorem (s : DiskState) (fuel i li n : Nat) (chain : List IndirectINode)
    (hloc : s.locate_inode i = .ok li)
    (hchain : DiskState.decodesIndirectChain s
      (s.inodes.getD li default).indirect_pointer chain)
    (hfuel : chain.length ≤ fuel)
    (hcover : (s.inodes.getD li default).file_size
      ≤ s.inlineByteLen (s.inodes.getD li default) + s.chainByteLen chain) :
    ∃ res, s.read_file_bytes fuel i n = .ok (res, s)
      ∧ res.length = if n = 0 then (s.inodes.getD li default).file_size
          else min n (s.inodes.getD li default).file_size := by
  set inode := s.inodes.getD li default with hinode
  set nbv := (if n > inode.file_size then inode.file_size
    else if n = 0 then inode.file_size else n) with hnb
  have hA : nbv ≤ inode.file_size := by
    rw [hnb]; split_ifs <;> omega
  have hin := readFoldLen s nbv (fun k => inode.blocks.getD k default)
    (List.range inode.num_extents) ([], 0) rfl (Nat.zero_le nbv)
  have hin1 : (DiskState.readInlinePass s nbv inode).2
      = (DiskState.readInlinePass s nbv inode).1.length := hin.1
  have hin2 : (DiskState.readInlinePass s nbv inode).1.length
      = min nbv (0 + DiskState.inlineByteLen s inode) := hin.2
  have hle1 : (DiskState.readInlinePass s nbv inode).1.length ≤ nbv := by
    rw [hin2]; omega
  have hcov1 : nbv ≤ (DiskState.readInlinePass s nbv inode).1.length
      + s.chainByteLen chain := by
    rw [hin2]; omega
  obtain ⟨res2, hrec, hl2⟩ := readIndirectLen s nbv chain fuel inode.indirect_pointer
    (DiskState.readInlinePass s nbv inode).1 hchain hfuel hle1 hcov1
  refine ⟨res2, ?_, ?_⟩
  · unfold DiskState.read_file_bytes
    simp only [Bind.bind, Except.bind, hloc]
    try dsimp only
    rw [← hinode, ← hnb, hin1, hrec]
  · rw [hl2, hnb]
    split_ifs <;> omega

/-- C8 witness: reading 5 bytes of the cached one-byte file on `readState`
returns exactly one byte. -/
theorem C8_witness :
    (match c8Run with
     | .ok p => p.1.length = 1 ∧ p.2 = readState
     | .error _ => False) := by
  obtain ⟨res, heq, hlen⟩ :=
    C8_theorem readState 8 0 0 5 [] rfl trivial (Nat.zero_le _) (by decide)
  have hc8 : c8Run = .ok (res, readState) := heq
  rw [hc8]
  refine ⟨?_, rfl⟩
  rw [hlen]
  decide

/-- C6 counterexample: `wideNameTag` is produced by the public constructor
`TagBlock.new` with the one-char name U+0100, yet the codec does not round-trip
it (the char is truncated to a byte). -/
theorem C6_counterexample : TagBlock.from_bytes wideNameTag.to_bytes ≠ some wideNameTag := by
  decide

/-- C6 (amended): for block values satisfying the constructor invariants —
in particular every name char below 256 — the codec round-trips all five
block types, with the non-serialised `maximum_extents` / `maximum_members`
helper fields reset on load. -/
theorem C6_theorem :
    (∀ b : INode, b.WF → INode.from_bytes b.to_bytes = some b)
    ∧ (∀ b : TagBlock, b.WF → TagBlock.from_bytes b.to_bytes = some b)
    ∧ (∀ b : IndirectINode, b.WF →
        IndirectINode.from_bytes b.to_bytes = some { b with maximum_extents := 0 })
    ∧ (∀ b : IndirectTagBlock, b.WF →
        IndirectTagBlock.from_bytes b.to_bytes = some { b with maximum_members := 0 })
    ∧ (∀ b : SuperBlock, b.WF → SuperBlock.from_bytes b.to_bytes = some b) :=
  ⟨inode_from_to, tag_block_from_to, indirect_inode_from_to, indirect_tag_from_to,
    super_block_from_to⟩

/-- C6 witness: concrete constructor-built blocks of all five types
round-trip. -/
theorem C6_witness :
    INode.from_bytes wINode.to_bytes = some wINode
    ∧ TagBlock.from_bytes fullTag.to_bytes = some fullTag
    ∧ IndirectINode.from_bytes wIndirectINode.to_bytes
        = some { wIndirectINode with maximum_extents := 0 }
    ∧ IndirectTagBlock.from_bytes fullTagIndirect.to_bytes
        = some { fullTagIndirect with maximum_members := 0 }
    ∧ SuperBlock.from_bytes imageSuper.to_bytes = some imageSuper :=
  ⟨C6_theorem.1 wINode (by simp only [INode.WF]; decide),
    C6_theorem.2.1 fullTag (by simp only [TagBlock.WF]; decide),
    C6_theorem.2.2.1 wIndirectINode (by simp only [IndirectINode.WF]; decide),
    C6_theorem.2.2.2.1 fullTagIndirect (by simp only [IndirectTagBlock.WF]; decide),
    C6_theorem.2.2.2.2 imageSuper (by simp only [SuperBlock.WF]; decide)⟩

end VoxFS
